import Mathlib

/-!
Verification development for the Chefbot preference-resolution engine
(`src/chefbotv3.py`).  The Python source is shallowly embedded below:

* Python `str` values that are scanned character by character are modelled
  as `Str := List Char`; strings only compared for equality stay `String`.
* The spaCy analyzer is an external collaborator: `parse_input_nlp` receives
  the analyzer's output (`List Token`, the tokens of the lowercased text with
  lemma, dependency label, head index, part of speech and character offsets)
  as an explicit argument instead of calling `NLP(text_lower)`.
* Python `dict`s keyed by strings are modelled as association lists.  A
  Python `dict` cannot hold a duplicate key; all access goes through
  `List.lookup`-based helpers, which read the first matching entry, and
  updates rewrite every matching entry, so the model agrees with Python on
  every state reachable from a duplicate-free map.
* Python code that can raise (`extracted_entities[k].append(...)` on a
  missing key is a `KeyError`; appending to the `'attributes'` dict is an
  `AttributeError`) is modelled in the `Option` monad, `none` = raised.
* `list(set(xs))` and set iteration enumerate their elements in an
  unspecified order in Python.  Wherever the source does this the elements
  are pairwise distinct or only membership is ever consumed; the model picks
  the first-occurrence order and all theorems below only use membership.
-/

/-! ### Python string primitives -/

/-- Python `str` scanned by the matching code. -/
abbrev Str := List Char

/-- Python `str.lower()` (the source only ever feeds ASCII keyword text). -/
def lowerStr (s : Str) : Str := s.map Char.toLower

/-- Characters Python `str.strip()` and the regex class `\s` treat as space. -/
def pyIsSpace (c : Char) : Bool :=
  c == ' ' || c.toNat == 9 || c.toNat == 10 || c.toNat == 13 || c.toNat == 11 || c.toNat == 12

/-- Python `str.strip()`. -/
def pyStrip (s : Str) : Str :=
  ((s.dropWhile pyIsSpace).reverse.dropWhile pyIsSpace).reverse

/-- Python `str.strip()` on a `String`. -/
def pyStripS (s : String) : String := String.mk (pyStrip s.toList)

/-- Python `str.lower()` on a `String` (kept executable over the character
list; `String.toLower` itself does not reduce inside the kernel). -/
def pyLowerS (s : String) : String := String.mk (lowerStr s.toList)

/-- Python `str.startswith(pre)` (again kept executable over the character
list). -/
def strStartsWith (s pre : String) : Bool := pre.toList.isPrefixOf s.toList

/-- Substring test, Python `pat in s`. -/
def isSubstr (pat s : Str) : Bool :=
  (List.range (s.length + 1)).any (fun i => pat.isPrefixOf (s.drop i))

/-- One scanning step of `re.finditer` for an escaped literal pattern:
from position `i`, emit every non-overlapping occurrence left to right. -/
def findOccsAux (pat s : Str) : Nat → Nat → List Nat
  | _, 0 => []
  | i, fuel + 1 =>
    if i ≤ s.length then
      if pat.isPrefixOf (s.drop i) then i :: findOccsAux pat s (i + max pat.length 1) fuel
      else findOccsAux pat s (i + 1) fuel
    else []

/-- Start offsets of the matches of `re.finditer(re.escape(pat), s)`. -/
def findOccs (pat s : Str) : List Nat := findOccsAux pat s 0 (s.length + 1)

/-- Python regex `\w` (the source only matches ASCII ingredient text). -/
def wordChar (c : Char) : Bool := c.isAlphanum || c == '_'

/-- Whether position `i` of `s` holds a word character (out of range: no). -/
def wordAt (s : Str) (i : Nat) : Bool := wordChar (s.getD i ' ')

/-- Python regex `\b` at the gap just before position `i`. -/
def boundaryAt (s : Str) (i : Nat) : Bool :=
  (if i = 0 then false else wordAt s (i - 1)) != wordAt s i

/-- `re.search(r'\b' + re.escape(pat) + r'\b', s)` as a Bool. -/
def wbSearch (pat s : Str) : Bool :=
  (List.range (s.length + 1)).any (fun i =>
    pat.isPrefixOf (s.drop i) && boundaryAt s i && boundaryAt s (i + pat.length))

/-- `\b(a1|...|an)\b` for literal alternatives: the group boundaries coincide
with per-alternative boundaries because each alternative is a literal. -/
def wbSearchAny (pats : List Str) (s : Str) : Bool := pats.any (fun p => wbSearch p s)

/-- Helper for `\s+` followed by one of `alts` ending with `\b`, starting at
position `j` of `s`. -/
def spacesThenAlt (alts : List Str) (s : Str) (j : Nat) : Bool :=
  (List.range (s.length + 1)).any (fun n =>
    decide (1 ≤ n) && ((s.drop j).take n).all pyIsSpace &&
    alts.any (fun w => w.isPrefixOf (s.drop (j + n)) && boundaryAt s (j + n + w.length)))

/-- `re.search(r'\b(vegetarian|vegetable|veggie)\s+(broth|stock|bouillon)\b', s, re.IGNORECASE)`. -/
def regexVegBroth (s : Str) : Bool :=
  let t := lowerStr s
  (List.range (t.length + 1)).any (fun i =>
    ["vegetarian".toList, "vegetable".toList, "veggie".toList].any (fun w1 =>
      boundaryAt t i && w1.isPrefixOf (t.drop i) &&
      spacesThenAlt ["broth".toList, "stock".toList, "bouillon".toList] t (i + w1.length)))

/-- `re.search(r'\b(dairy[- ]?free|lactose[- ]?free)\b', s, re.IGNORECASE)`:
the optional `[- ]?` is expanded into the finite list of literal alternatives. -/
def regexDairyFree (s : Str) : Bool :=
  wbSearchAny ["dairy-free".toList, "dairy free".toList, "dairyfree".toList,
    "lactose-free".toList, "lactose free".toList, "lactosefree".toList] (lowerStr s)

/-- `re.search(r'\bgluten[- ]?free\b', s, re.IGNORECASE)`. -/
def regexGlutenFree (s : Str) : Bool :=
  wbSearchAny ["gluten-free".toList, "gluten free".toList, "glutenfree".toList] (lowerStr s)

/-- `re.search(r'\b(tamari|gluten[- ]?free soy sauce)\b', s, re.IGNORECASE)`. -/
def regexTamari (s : Str) : Bool :=
  wbSearchAny ["tamari".toList, "gluten-free soy sauce".toList,
    "gluten free soy sauce".toList, "glutenfree soy sauce".toList] (lowerStr s)

/-- `re.search(r'\b(oat|oats)\b', s, re.IGNORECASE)`. -/
def regexOat (s : Str) : Bool :=
  wbSearchAny ["oat".toList, "oats".toList] (lowerStr s)

/-- `re.search(r'\b(gluten[- ]?free oat|certified gluten[- ]?free)\b', s, re.IGNORECASE)`. -/
def regexGfOat (s : Str) : Bool :=
  wbSearchAny ["gluten-free oat".toList, "gluten free oat".toList, "glutenfree oat".toList,
    "certified gluten-free".toList, "certified gluten free".toList,
    "certified glutenfree".toList] (lowerStr s)

/-! ### The analyzer output consumed by `parse_input_nlp` -/

/-- One spaCy token of the lowercased input text: surface form, lemma,
dependency label, index of the head token, coarse part of speech, and the
character span `[startChar, endChar)` it covers in the text. -/
structure Token where
  text : String
  lemma_ : String
  dep_ : String
  headIdx : Nat
  pos_ : String
  startChar : Nat
  endChar : Nat
deriving Repr, DecidableEq

/-- Placeholder for an out-of-range token access (never hit on well-formed
analyzer output, where every head index is in range). -/
def dummyTok : Token := ⟨"", "", "", 0, "", 0, 0⟩

/-- The syntactic children of token `i`: every token whose head is `i`
(spaCy roots point at themselves and are not their own children). -/
def childrenOf (doc : List Token) (i : Nat) : List Token :=
  (doc.enum.filter (fun p => p.2.headIdx == i && p.1 != i)).map Prod.snd

/-- `doc.char_span(s, e, alignment_mode="contract")`, as token index span
`[fst, snd)`: the tokens lying entirely inside the character range; `none`
when no token does. -/
def charSpan (doc : List Token) (s e : Nat) : Option (Nat × Nat) :=
  match (doc.enum.filter (fun p => decide (s ≤ p.2.startChar) && decide (p.2.endChar ≤ e))).map
      Prod.fst with
  | [] => none
  | i :: rest => some (i, rest.getLastD i + 1)

/-- Negation test for a single token in the second pass (line 123): a `neg`
dependency child, or being the object of a `without`/`except`/`excluding`
preposition. -/
def tokenNegated (doc : List Token) (i : Nat) (tok : Token) : Bool :=
  (childrenOf doc i).any (fun c => c.dep_ == "neg") ||
  (tok.dep_ == "pobj" && ["without", "except", "excluding"].contains (doc.getD tok.headIdx dummyTok).lemma_)

/-! ### The lexicon (`preference_map`) and parse entities -/

/-- `tag → list of surface keyword phrases` for one category. -/
abbrev TagMap := List (String × List String)

/-- The preference map: `category → tag → keywords`. -/
abbrev Lexicon := List (String × TagMap)

/-- The `current_asking_type` argument: Python `None`, a string, or a list. -/
inductive Asking where
  | nothing : Asking
  | one : String → Asking
  | many : List String → Asking
deriving Repr, DecidableEq

/-- `priority_types_to_check` (lines 71-75). -/
def prioList : Asking → List String
  | .nothing => []
  | .one s => [s]
  | .many l => l

/-- The Python comparison `current_asking_type == 'dislikes'`. -/
def askingIsDislikes : Asking → Bool
  | .one s => s == "dislikes"
  | _ => false

/-- The `extracted_entities` buckets (all the list-valued keys). -/
abbrev EntMap := List (String × List String)

/-- Reading a bucket; an absent key reads as the empty list. -/
def emGet (m : EntMap) (k : String) : List String := (List.lookup k m).getD []

/-- Replace the value stored under `k` (every entry, see the header note). -/
def emSetAll (m : EntMap) (k : String) (l : List String) : EntMap :=
  m.map (fun p => if p.1 = k then (p.1, l) else p)

/-- `if key not in extracted_entities[target]: extracted_entities[target].append(key)`;
`none` models the `KeyError` raised when `target` is not a bucket. -/
def emAppendNew (m : EntMap) (k v : String) : Option EntMap :=
  match List.lookup k m with
  | none => none
  | some l => if v ∈ l then some m else some (emSetAll m k (l ++ [v]))

/-- The mutable state of one `parse_input_nlp` call: the entity buckets, the
`attributes` sub-dict, the running intent, and `matched_phrase_tokens_indices`. -/
structure PState where
  ents : EntMap
  attrs : List (String × List String)
  intent : String
  matchedIdx : List Nat
deriving Repr, DecidableEq

/-- Lines 107-111: append `key` to bucket `target` (if new) and flip a
`preference` intent to `dislike_statement` when the target is `dislikes`.
`none` models the `KeyError`/`AttributeError` on a non-list target
(`extracted_entities['attributes']` is always a dict in the source). -/
def recordKey (st : PState) (target key : String) : Option PState :=
  if target == "attributes" then none
  else
    match emAppendNew st.ents target key with
    | none => none
    | some e =>
      some { st with
        ents := e
        intent := if target == "dislikes" && st.intent == "preference" then "dislike_statement"
                  else st.intent }

/-- Lines 92-98: is the phrase occurrence at character offset `occ` negated?
Either the token just before the contracted char span is a negation marker,
or `"without " + phrase` occurs anywhere in the text. -/
def phraseNegTest (doc : List Token) (textL kwL : Str) (occ : Nat) : Bool :=
  (match charSpan doc occ (occ + kwL.length) with
   | some (i, _) =>
     decide (0 < i) &&
       (let pv := doc.getD (i - 1) dummyTok
        pv.dep_ == "neg" || ["not", "no", "without"].contains pv.lemma_)
   | none => false) ||
  isSubstr ("without ".toList ++ kwL) textL

/-- One multi-word-phrase match event of the phrase pass: category, tag,
lowered keyword phrase, and the character offset of the occurrence. -/
structure PhraseEv where
  pt : String
  key : String
  kwL : Str
  occ : Nat
deriving Repr, DecidableEq

/-- `types_for_phrase_check` (lines 78-82): priority categories first, then
the remaining non-`known_` categories, everything except `flavor`. -/
def typesForPhraseCheck (lex : Lexicon) (ask : Asking) : List String :=
  ((prioList ask) ++
      (lex.map Prod.fst).filter
        (fun t => !(prioList ask).contains t && !strStartsWith t "known_")).filter
    (fun t => t != "flavor")

/-- All phrase-pass match events, in the order the loop nest of lines 85-91
produces them (category, then tag, then keyword, then occurrence). -/
def phraseEvents (lex : Lexicon) (ask : Asking) (textL : Str) : List PhraseEv :=
  (typesForPhraseCheck lex ask).flatMap (fun pt =>
    match List.lookup pt lex with
    | none => []
    | some tm =>
      tm.flatMap (fun kv =>
        kv.2.flatMap (fun kw =>
          let kwL := lowerStr kw.toList
          if kwL.contains ' ' then (findOccs kwL textL).map (fun o => ⟨pt, kv.1, kwL, o⟩)
          else [])))

/-- Lines 100-105: the target bucket and updated intent for one phrase
occurrence — the `current_asking_type == 'dislikes'` redirect wins, then a
negated occurrence of a non-`dislikes` category goes to `negated` (flipping
a `preference` intent to `negation`), else the home category. -/
def phraseTarget (ask : Asking) (pt intent : String) (isNeg : Bool) : String × String :=
  if askingIsDislikes ask && pt != "dislikes" then ("dislikes", intent)
  else if isNeg && pt != "dislikes" then
    ("negated", if intent == "preference" then "negation" else intent)
  else (pt, intent)

/-- Processing of one phrase occurrence (lines 92-115): negation test,
target-bucket selection, recording, and marking of the consumed token
indices. -/
def phraseOccStep (doc : List Token) (textL : Str) (ask : Asking) (st : PState)
    (ev : PhraseEv) : Option PState :=
  match recordKey
      { st with intent :=
          (phraseTarget ask ev.pt st.intent (phraseNegTest doc textL ev.kwL ev.occ)).2 }
      (phraseTarget ask ev.pt st.intent (phraseNegTest doc textL ev.kwL ev.occ)).1
      ev.key with
  | none => none
  | some st2 =>
    some { st2 with
      matchedIdx := st2.matchedIdx ++
        (match charSpan doc ev.occ (ev.occ + ev.kwL.length) with
         | some sp => List.range' sp.1 (sp.2 - sp.1)
         | none => []) }

/-- The whole phrase pass (lines 85-115). -/
def phrasePass (doc : List Token) (textL : Str) (ask : Asking) (lex : Lexicon)
    (st : PState) : Option PState :=
  (phraseEvents lex ask textL).foldlM (phraseOccStep doc textL ask) st

/-- Lines 128-140: first `(pref_type, key)` of the priority categories whose
keyword list contains the token's lowercased surface form or its lemma. -/
def scanTypes (lex : Lexicon) : List String → String → String → Option (String × String)
  | [], _, _ => none
  | pt :: rest, surfL, lem =>
    match List.lookup pt lex with
    | none => scanTypes lex rest surfL lem
    | some tm =>
      match tm.find? (fun kv => kv.2.contains surfL || kv.2.contains lem) with
      | some kv => some (pt, kv.1)
      | none => scanTypes lex rest surfL lem

/-- Lines 144-156: the same scan over the remaining categories of the map,
skipping `known_` groups, the priority categories and `flavor`. -/
def scanRest : Lexicon → List String → String → String → Option (String × String)
  | [], _, _, _ => none
  | (pt, tm) :: rest, prio, surfL, lem =>
    if strStartsWith pt "known_" || prio.contains pt || pt == "flavor" then
      scanRest rest prio surfL lem
    else
      match tm.find? (fun kv => kv.2.contains surfL || kv.2.contains lem) with
      | some kv => some (pt, kv.1)
      | none => scanRest rest prio surfL lem

/-- Line 159: the ingredient tag whose keywords contain the lemma or the
lowercased surface form of an unmatched noun. -/
def ingredientKeyForAttr (lex : Lexicon) (surfL lem : String) : Option String :=
  match List.lookup "ingredient" lex with
  | none => none
  | some tm => (tm.find? (fun kv => kv.2.contains lem || kv.2.contains surfL)).map Prod.fst

/-- Lines 166-171: the `texture` attribute tag matching an adjective lemma. -/
def findAttrKey (lex : Lexicon) (adjLem : String) : Option String :=
  match List.lookup "texture" lex with
  | none => none
  | some tm => (tm.find? (fun kv => kv.2.contains adjLem)).map Prod.fst

/-- Lines 172-174: `extracted_entities['attributes'].setdefault(ik, []).append(ak)`
guarded by membership. -/
def attrAdd (attrs : List (String × List String)) (ik ak : String) :
    List (String × List String) :=
  match List.lookup ik attrs with
  | none => attrs ++ [(ik, [ak])]
  | some l => if ak ∈ l then attrs else attrs.map (fun p => if p.1 == ik then (p.1, l ++ [ak]) else p)

/-- Lines 161-174: fold of the adjectival-modifier children of a matched
ingredient noun into the attribute map. -/
def attrChildStep (lex : Lexicon) (ik : String) (attrs : List (String × List String))
    (child : Token) : List (String × List String) :=
  if child.dep_ == "amod" then
    match findAttrKey lex child.lemma_ with
    | some ak => attrAdd attrs ik ak
    | none => attrs
  else attrs

/-- Lines 131-138: target bucket and updated intent when a priority-category
keyword matches the token (`negated` unless the category is `dislikes`;
the intent flips to `negation` only for a negated non-`dislikes` match). -/
def tokenTargetPrio (pt intent : String) (isNeg : Bool) : String × String :=
  ((if isNeg then (if pt != "dislikes" then "negated" else "dislikes") else pt),
   (if isNeg && pt != "dislikes" && intent == "preference" then "negation" else intent))

/-- Lines 147-154: target bucket and updated intent when a remaining-category
keyword matches the token (a negated match always goes to `negated`). -/
def tokenTargetRest (pt intent : String) (isNeg : Bool) : String × String :=
  ((if isNeg then "negated" else pt),
   (if isNeg && intent == "preference" then "negation" else intent))

/-- Lines 117-174: processing of one token of the single-token pass.  Tokens
consumed by a phrase are skipped; otherwise the priority categories are
scanned first, then the remaining categories, and finally the attribute
attachment for unmatched nouns. -/
def tokenStep (doc : List Token) (lex : Lexicon) (ask : Asking) (st : PState)
    (it : Nat × Token) : Option PState :=
  if st.matchedIdx.contains it.1 then some st
  else
    match scanTypes lex ((prioList ask).filter (fun t => t != "flavor"))
        (pyLowerS it.2.text) it.2.lemma_ with
    | some ptk =>
      recordKey
        { st with intent := (tokenTargetPrio ptk.1 st.intent (tokenNegated doc it.1 it.2)).2 }
        (tokenTargetPrio ptk.1 st.intent (tokenNegated doc it.1 it.2)).1 ptk.2
    | none =>
      match scanRest lex (prioList ask) (pyLowerS it.2.text) it.2.lemma_ with
      | some ptk =>
        recordKey
          { st with intent := (tokenTargetRest ptk.1 st.intent (tokenNegated doc it.1 it.2)).2 }
          (tokenTargetRest ptk.1 st.intent (tokenNegated doc it.1 it.2)).1 ptk.2
      | none =>
        if it.2.pos_ == "NOUN" then
          match ingredientKeyForAttr lex (pyLowerS it.2.text) it.2.lemma_ with
          | some ik =>
            some { st with attrs := (childrenOf doc it.1).foldl (attrChildStep lex ik) st.attrs }
          | none => some st
        else some st

/-- The question-word set of line 22. -/
def QUESTION_WORDS : List String :=
  ["what", "who", "where", "when", "why", "how", "is", "are", "do", "does", "can", "could",
    "should", "would", "which"]

/-- The buckets of `extracted_entities` as initialised on lines 64-67: one
empty list per non-`known_`, non-`flavor` category, plus `negated` (the
`attributes` dict is carried separately in `PState.attrs`). -/
def initEnts (lex : Lexicon) : EntMap :=
  ((lex.map Prod.fst).filter (fun k => !strStartsWith k "known_" && k != "flavor")).map
      (fun k => (k, [])) ++
    [("negated", [])]

/-- The result of one parse: intent, the non-empty entity buckets, and the
attribute map. -/
structure ParseResult where
  intent : String
  entities : EntMap
  attributes : List (String × List String)
deriving Repr, DecidableEq

/-- Reading a bucket of a `ParseResult`. -/
def prGet (r : ParseResult) (k : String) : List String := emGet r.entities k

/-- Lines 176-190: drop the empty buckets and recompute the intent from the
final `negated` and `dislikes` buckets (the `list(set(...))` deduplication
is the identity here because buckets are built duplicate-free). -/
def finalizeParse (st2 : PState) : ParseResult :=
  let fents := st2.ents.filter (fun p => !p.2.isEmpty)
  let intent2 :=
    if !(emGet fents "negated").isEmpty && st2.intent == "preference" then "negation"
    else st2.intent
  let intent3 :=
    if !(emGet fents "dislikes").isEmpty && intent2 == "preference" then "dislike_statement"
    else intent2
  ⟨intent3, fents, st2.attrs⟩

/-- Lines 58-62: the question shortcut — the lowercased text ends in `?`
or its first token is a question word. -/
def questionCheck (text : String) (doc : List Token) : Bool :=
  (lowerStr text.toList).getLastD ' ' == '?' ||
  QUESTION_WORDS.contains (match doc with | [] => "" | t :: _ => pyLowerS t.text)

/-- Shallow embedding of `parse_input_nlp` (lines 45-190).  `doc` is the
spaCy analysis of the lowercased text (an external collaborator's output);
`none` models an uncaught Python exception. -/
def parse_input_nlp (text : String) (lex : Lexicon) (ask : Asking) (doc : List Token) :
    Option ParseResult :=
  if lex.isEmpty then some ⟨"unknown", [], []⟩
  else
    if questionCheck text doc then
      some ⟨"question", [], []⟩
    else
      match phrasePass doc (lowerStr text.toList) ask lex
          ⟨initEnts lex, [], "preference", []⟩ with
      | none => none
      | some st1 =>
        match doc.enum.foldlM (tokenStep doc lex ask) st1 with
        | none => none
        | some st2 => some (finalizeParse st2)

/-! ### Meal data, dietary and dislike checkers (lines 234-291) -/

/-- A candidate summary returned by the coarse search; only `idMeal` is
consulted by the filter (`none` models an absent key). -/
structure MealSummary where
  idMeal : Option String
  strMeal : String
deriving Repr, DecidableEq

/-- A full detail record: the `strIngredient1..strIngredient20` slot values
in order (`""` models an absent/empty slot) and the scalar fields the
filter reads (absent keys read as `""`, like `detail.get(k, '')`). -/
structure MealDetail where
  strIngredients : List String
  strMeal : String
  strCategory : String
  strArea : String
deriving Repr, DecidableEq

/-- Lines 239-240 and 280-281: the set of stripped, lowercased, non-empty
ingredient lines of a detail record. -/
def ingredientsLower (d : MealDetail) : List Str :=
  (((d.strIngredients.filter (fun s => s != "")).map
      (fun s => lowerStr (pyStrip s.toList))).filter (fun s => !s.isEmpty)).eraseDups

/-- Preference state lookup, Python `preferences.get(k, [])`. -/
def prefsGet (p : List (String × List String)) (k : String) : List String :=
  (List.lookup k p).getD []

/-- All keywords of one `known_` group of the map, Python
`for k_map in preference_map.get(cat, {}).values(): acc.update(k_map)`. -/
def groupKeywords (lex : Lexicon) (cat : String) : List String :=
  ((List.lookup cat lex).getD []).flatMap Prod.snd

/-- Lines 259-263: the inner gluten decision for one ingredient line
(already known to contain a gluten keyword). -/
def glutenViolation (ing : Str) : Bool :=
  if regexGlutenFree ing then false
  else if isSubstr "soy sauce".toList ing && !regexTamari ing then true
  else if regexOat ing && !regexGfOat ing then true
  else if !(isSubstr "soy sauce".toList ing || regexOat ing) then true
  else false

/-- Shallow embedding of `check_dietary_restrictions` (lines 234-264);
`md = none` models a falsy (absent) detail record. -/
def check_dietary_restrictions (md : Option MealDetail)
    (prefs : List (String × List String)) (lex : Lexicon) : Bool :=
  match md with
  | none => true
  | some d =>
    let dietary := prefsGet prefs "dietary"
    if dietary.isEmpty then false
    else
      let meatKws :=
        if dietary.contains "vegetarian" || dietary.contains "vegan" then
          groupKeywords lex "known_meats"
        else []
      let dairyKws :=
        if dietary.contains "vegan" || dietary.contains "dairy_free" then
          groupKeywords lex "known_dairy"
        else []
      let eggKws :=
        if dietary.contains "vegan" then
          ((List.lookup "ingredient" lex).getD [] |> List.lookup "eggs").getD []
        else []
      let glutenKws :=
        if dietary.contains "gluten_free" then groupKeywords lex "known_gluten" else []
      (ingredientsLower d).any (fun ing =>
        (!meatKws.isEmpty && meatKws.any (fun kw => wbSearch kw.toList ing) &&
            !regexVegBroth ing) ||
        (!dairyKws.isEmpty && dairyKws.any (fun kw => wbSearch kw.toList ing) &&
            !regexDairyFree ing) ||
        (!eggKws.isEmpty && eggKws.any (fun kw => wbSearch kw.toList ing)) ||
        (!glutenKws.isEmpty && glutenKws.any (fun kw => wbSearch kw.toList ing) &&
            glutenViolation ing))

/-- Shallow embedding of `check_dislikes` (lines 266-291). -/
def check_dislikes (md : Option MealDetail) (prefs : List (String × List String))
    (lex : Lexicon) : Bool :=
  match md with
  | none => true
  | some d =>
    let dk := prefsGet prefs "dislikes"
    if dk.isEmpty then false
    else
      let kws := dk.flatMap (fun item =>
        ((((List.lookup "dislikes" lex).getD []) |> List.lookup item).getD []).map
            pyLowerS ++
        ["ingredient", "category", "cuisine"].flatMap (fun pt =>
          ((((List.lookup pt lex).getD []) |> List.lookup item).getD [pyLowerS item]).map
            pyLowerS))
      if kws.isEmpty then false
      else
        (ingredientsLower d).any (fun ing => kws.any (fun kw => wbSearch kw.toList ing)) ||
        kws.any (fun kw => wbSearch kw.toList (lowerStr d.strMeal.toList)) ||
        kws.any (fun kw => wbSearch kw.toList (lowerStr d.strCategory.toList))

/-! ### Meal filtering (`filter_meal_results`, lines 294-360) -/

/-- The vocabularies fetched from the external data source. -/
structure AvailLists where
  categories : List String
  areas : List String
  ingredients : List String
deriving Repr, DecidableEq

/-- Lines 297-301: whether a detail-inspecting pass is required. -/
def needsDetailCheck (prefs : List (String × List String)) (force : Bool)
    (initial : Option String) : Bool :=
  force || !(prefsGet prefs "dislikes").isEmpty || !(prefsGet prefs "dietary").isEmpty ||
  (!(prefsGet prefs "category").isEmpty && initial != some "category") ||
  (!(prefsGet prefs "cuisine").isEmpty && initial != some "cuisine") ||
  (!(prefsGet prefs "ingredient").isEmpty && initial != some "ingredient")

/-- Lines 322, 332, 342: the single tag of a secondary category, when that
category holds exactly one tag and was not the primary search category. -/
def secondaryKeyOf (prefs : List (String × List String)) (initial : Option String)
    (cat : String) : Option String :=
  if (prefsGet prefs cat).length == 1 && initial != some cat then (prefsGet prefs cat).head?
  else none

/-- Lines 323-330: the secondary cuisine check fails (candidate dropped). -/
def cuisineCheckFails (lex : Lexicon) (lists : AvailLists) (d : MealDetail)
    (sec : String) : Bool :=
  let mealArea := pyLowerS d.strArea
  let expected :=
    ((List.lookup "cuisine" lex).getD []).flatMap (fun kv =>
      if kv.1 == sec then (kv.2.map pyLowerS).filter (fun kw => lists.areas.contains kw)
      else [])
  let expected2 :=
    if expected.isEmpty && lists.areas.contains (pyLowerS sec) then [pyLowerS sec] else expected
  !expected2.isEmpty && !expected2.contains mealArea

/-- Lines 332-340: the secondary category check fails. -/
def categoryCheckFails (lex : Lexicon) (lists : AvailLists) (d : MealDetail)
    (sec : String) : Bool :=
  let mealCat := pyLowerS d.strCategory
  let expected :=
    ((List.lookup "category" lex).getD []).flatMap (fun kv =>
      if kv.1 == sec then (kv.2.map pyLowerS).filter (fun kw => lists.categories.contains kw)
      else [])
  let expected2 :=
    if expected.isEmpty && lists.categories.contains (pyLowerS sec) then [pyLowerS sec]
    else expected
  !expected2.isEmpty && !expected2.contains mealCat

/-- Lines 342-353: the secondary ingredient check fails (keyword not found
in any ingredient slot). -/
def ingredientCheckFails (lex : Lexicon) (d : MealDetail) (sec : String) : Bool :=
  let kws := ((((List.lookup "ingredient" lex).getD []) |> List.lookup sec)).getD [pyLowerS sec]
  !(d.strIngredients.any (fun ing =>
    ing != "" && pyStripS ing != "" &&
    kws.any (fun kw => wbSearch (pyLowerS kw).toList (lowerStr (pyStrip ing.toList)))))

/-- Whether a fetched detail record survives every per-candidate check of
the loop body (lines 319-353). -/
def detailSurvives (lex : Lexicon) (lists : AvailLists)
    (prefs : List (String × List String)) (initial : Option String) (d : MealDetail) : Bool :=
  !check_dislikes (some d) prefs lex &&
  !check_dietary_restrictions (some d) prefs lex &&
  !(match secondaryKeyOf prefs initial "cuisine" with
    | some sec => cuisineCheckFails lex lists d sec
    | none => false) &&
  !(match secondaryKeyOf prefs initial "category" with
    | some sec => categoryCheckFails lex lists d sec
    | none => false) &&
  !(match secondaryKeyOf prefs initial "ingredient" with
    | some sec => ingredientCheckFails lex d sec
    | none => false)

/-- The candidate loop of lines 309-357, with the per-call detail cache
threaded through; `fetch` is the external `get_meal_details` collaborator. -/
def filterLoop (fetch : String → Option MealDetail) (lex : Lexicon) (lists : AvailLists)
    (prefs : List (String × List String)) (initial : Option String) :
    List MealSummary → List (String × MealDetail) → List MealSummary
  | [], _ => []
  | m :: rest, cache =>
    match m.idMeal with
    | none => filterLoop fetch lex lists prefs initial rest cache
    | some mid =>
      if mid == "" then filterLoop fetch lex lists prefs initial rest cache
      else
        match List.lookup mid cache with
        | some d =>
          if detailSurvives lex lists prefs initial d then
            m :: filterLoop fetch lex lists prefs initial rest cache
          else filterLoop fetch lex lists prefs initial rest cache
        | none =>
          match fetch mid with
          | none => filterLoop fetch lex lists prefs initial rest cache
          | some d =>
            if detailSurvives lex lists prefs initial d then
              m :: filterLoop fetch lex lists prefs initial rest (cache ++ [(mid, d)])
            else filterLoop fetch lex lists prefs initial rest (cache ++ [(mid, d)])

/-- Shallow embedding of `filter_meal_results` (lines 294-360). -/
def filter_meal_results (fetch : String → Option MealDetail) (meals : List MealSummary)
    (prefs : List (String × List String)) (lex : Lexicon) (lists : AvailLists)
    (force : Bool) (initial : Option String) : List MealSummary :=
  if meals.isEmpty then []
  else if !needsDetailCheck prefs force initial then meals
  else filterLoop fetch lex lists prefs initial meals []

/-! ### The dialogue state machine (`chatbot_state_machine`, lines 362-704)

The interview phases (START through READY_TO_SEARCH, including negation
handling and clarification) are embedded in full.  The search/presentation
phases (`SEARCHING`, `SHOWING_RESULTS`, `GETTING_DETAILS`) perform network
I/O and console pagination and never mutate the preference state except by
full reset; they are outside the scope of the interview-state claims and
are modelled as absorbing states. -/

/-- The dialogue states of the `DialogueState` class (lines 363-371). -/
inductive DState where
  | START
  | FETCHING_LISTS
  | ASKING_CUISINE_INGREDIENT
  | ASKING_CATEGORY
  | ASKING_DIETARY
  | ASKING_DISLIKES
  | CLARIFY_PREFERENCE
  | HANDLE_NEGATION
  | READY_TO_SEARCH
  | SEARCHING
  | SHOWING_RESULTS
  | GETTING_DETAILS
  | EXITING
  | ERROR_STATE
deriving Repr, DecidableEq

/-- The `clarification_data` record (lines 456, 509). -/
structure ClarifData where
  ctype : String
  options : List String
  originalPrefs : List String
deriving Repr, DecidableEq

/-- The per-session mutable state of the controller loop. -/
structure Session where
  prefs : List (String × List String)
  state : DState
  asked : List String
  clarif : Option ClarifData
  lastIntent : ParseResult
deriving Repr, DecidableEq

/-- The controller's static collaborators: the loaded preference map, the
spaCy analyzer (maps a stripped user input to the tokens of its lowercased
text) and the vocabularies fetched in `FETCHING_LISTS`. -/
structure Cfg where
  lex : Lexicon
  analyze : String → List Token
  lists : AvailLists

/-- The session as initialised on lines 378-385. -/
def initSession (lex : Lexicon) : Session :=
  ⟨((lex.map Prod.fst).filter (fun k => !strStartsWith k "known_" && k != "flavor")).map
      (fun k => (k, [])),
    DState.START, [], none, ⟨"", [], []⟩⟩

/-- Python `list(set(cur + new))` (line 453/504); membership-faithful. -/
def pyUnion (cur new : List String) : List String := (cur ++ new).eraseDups

/-- Python dict assignment `preferences[k] = v`. -/
def prefsSet (p : List (String × List String)) (k : String) (v : List String) :
    List (String × List String) :=
  if (List.lookup k p).isSome then emSetAll p k v else p ++ [(k, v)]

/-- Python `set.add` on the `asked_this_session` set (kept as an ordered
duplicate-free list). -/
def askAdd (l : List String) (k : String) : List String :=
  if l.contains k then l else l ++ [k]

/-- `get_next_secondary_question_state` (lines 400-408): the first phase of
the fixed secondary order whose category is still unanswered. -/
def nextSecondary (asked : List String) : DState :=
  if !asked.contains "category" then DState.ASKING_CATEGORY
  else if !asked.contains "dislikes" then DState.ASKING_DISLIKES
  else if !asked.contains "dietary" then DState.ASKING_DIETARY
  else DState.READY_TO_SEARCH

/-- Lines 535-538, the body of the inner removal loop: erase the tag from
one positive category if present (`list.remove` removes one occurrence). -/
def negRemoveStep (tag : String) (q : List (String × List String)) (plt : String) :
    List (String × List String) :=
  if tag ∈ prefsGet q plt then prefsSet q plt ((prefsGet q plt).erase tag) else q

/-- Lines 531-538, the body of the negation loop for one item: append the
tag to `dislikes` (if new) and erase it from each positive category that
contains it.  `none` models the `KeyError` when the map has no `dislikes`
category (so `preferences` has no `dislikes` key). -/
def negateTag (p : List (String × List String)) (tag : String) :
    Option (List (String × List String)) :=
  match List.lookup "dislikes" p with
  | none => none
  | some dl =>
    let p1 := if tag ∈ dl then p else prefsSet p "dislikes" (dl ++ [tag])
    some (["cuisine", "ingredient", "category", "dietary"].foldl (negRemoveStep tag) p1)

/-- Line 572: some primary category (`ingredient`/`category`/`cuisine`)
holds a tag (computed, like the source, over the entries of the dict). -/
def hasPrimaryTerm (p : List (String × List String)) : Bool :=
  p.any (fun kv =>
    !kv.2.isEmpty && !(["dislikes", "_primary_search_keys", "flavor"].contains kv.1) &&
    ["ingredient", "category", "cuisine"].contains kv.1)

/-- Line 567-571: some positive (non-dislikes) preference would be printed. -/
def positivePrinted (p : List (String × List String)) : Bool :=
  p.any (fun kv =>
    !kv.2.isEmpty && !(["dislikes", "_primary_search_keys", "flavor"].contains kv.1))

/-- The items `HANDLE_NEGATION` marks as disliked (lines 521-527): the
`negated` and `dislikes` buckets of the last parse plus every other entity
bucket except `attributes` and `flavor`. -/
def negationItems (ents : EntMap) : List String :=
  (emGet ents "negated" ++ emGet ents "dislikes" ++
    ents.flatMap (fun kv =>
      if ["negated", "attributes", "dislikes", "flavor"].contains kv.1 then [] else kv.2)).eraseDups

/-- Whether the loop body reads a line of user input in the given session
(the `input(...)` calls are guarded: `CLARIFY_PREFERENCE` only prompts when
clarification data is present, `READY_TO_SEARCH` only when it does not
immediately loop back on lines 576-580). -/
def readsInput (s : Session) : Bool :=
  match s.state with
  | DState.ASKING_CUISINE_INGREDIENT => true
  | DState.ASKING_CATEGORY => true
  | DState.ASKING_DIETARY => true
  | DState.ASKING_DISLIKES => true
  | DState.CLARIFY_PREFERENCE => s.clarif.isSome
  | DState.READY_TO_SEARCH =>
    hasPrimaryTerm s.prefs ||
      (!(prefsGet s.prefs "dislikes").isEmpty && !positivePrinted s.prefs)
  | _ => false

/-- One merge of parsed entity tags into a preference category (lines
448-457 and 500-510): union the tags in, mark the category asked, and
report whether a clarification is now required. -/
def mergeOne (s : Session) (kt : String) (vals : List String) : Session × Bool :=
  if vals.isEmpty then (s, false)
  else
    let cur := prefsGet s.prefs kt
    let comb := pyUnion cur vals
    let s2 := { s with prefs := prefsSet s.prefs kt comb, asked := askAdd s.asked kt }
    if comb.length > 1 then ({ s2 with clarif := some ⟨kt, comb, cur⟩ }, true) else (s2, false)

/-- The loop body for the states that do not read input (lines 413-419,
519-543, 561-562, 576-580, 699-702).  `SEARCHING`, `SHOWING_RESULTS`,
`GETTING_DETAILS` and `EXITING` are absorbing in this model (see the
section header). -/
def stepAuto (s : Session) : Option Session :=
  match s.state with
  | DState.START => some { s with state := DState.FETCHING_LISTS }
  | DState.FETCHING_LISTS => some { s with state := DState.ASKING_CUISINE_INGREDIENT }
  | DState.HANDLE_NEGATION =>
    let items := negationItems s.lastIntent.entities
    match items.foldlM negateTag s.prefs with
    | none => none
    | some p2 =>
      let asked2 := askAdd s.asked "dislikes"
      some { s with prefs := p2, asked := asked2, state := nextSecondary asked2 }
  | DState.CLARIFY_PREFERENCE => some { s with state := DState.ASKING_CUISINE_INGREDIENT }
  | DState.READY_TO_SEARCH =>
    some { s with
      asked := s.asked.filter (fun k => k != "cuisine" && k != "ingredient" && k != "category")
      state := DState.ASKING_CUISINE_INGREDIENT }
  | DState.ERROR_STATE =>
    some ⟨(s.prefs.filter (fun kv => kv.1 != "flavor")).map (fun kv => (kv.1, [])),
      DState.START, [], s.clarif, ⟨"", [], []⟩⟩
  | _ => some s

/-- The `ASKING_CATEGORY`/`ASKING_DIETARY`/`ASKING_DISLIKES` handler
(lines 469-517) for the phase category `cpt`. -/
def stepSecondaryAsk (cfg : Cfg) (s : Session) (cpt : String) (input : String) :
    Option Session :=
  let ui := pyStripS input
  let uil := pyLowerS ui
  if uil == "quit" then some { s with state := DState.EXITING }
  else if ["skip", "any", "no", "none", ""].contains uil then
    some { s with asked := askAdd s.asked cpt, state := nextSecondary (askAdd s.asked cpt) }
  else
    match parse_input_nlp ui cfg.lex (Asking.one cpt) (cfg.analyze ui) with
    | none => none
    | some pd =>
      let s1 := { s with lastIntent := pd }
      if pd.intent == "question" then some s1
      else if cpt == "dislikes" then some { s1 with state := DState.HANDLE_NEGATION }
      else if pd.intent == "negation" || pd.intent == "dislike_statement" then
        some { s1 with state := DState.HANDLE_NEGATION }
      else if pd.intent == "preference" && !(prGet pd cpt).isEmpty then
        let cur := prefsGet s1.prefs cpt
        let comb := pyUnion cur (prGet pd cpt)
        let s2 := { s1 with prefs := prefsSet s1.prefs cpt comb, asked := askAdd s1.asked cpt }
        if cpt == "category" && comb.length > 1 then
          some { s2 with clarif := some ⟨cpt, comb, cur⟩, state := DState.CLARIFY_PREFERENCE }
        else some { s2 with state := nextSecondary s2.asked }
      else
        some { s1 with asked := askAdd s1.asked cpt, state := nextSecondary (askAdd s1.asked cpt) }

/-- The loop body for the states that read one line of input. -/
def stepInput (cfg : Cfg) (s : Session) (input : String) : Option Session :=
  match s.state with
  | DState.ASKING_CUISINE_INGREDIENT =>
    let ui := pyStripS input
    let uil := pyLowerS ui
    if uil == "quit" then some { s with state := DState.EXITING }
    else if ["skip", "any", "no", "none", ""].contains uil then
      let asked2 := askAdd (askAdd s.asked "cuisine") "ingredient"
      some { s with asked := asked2, state := nextSecondary asked2 }
    else
      match parse_input_nlp ui cfg.lex (Asking.many ["cuisine", "ingredient"])
          (cfg.analyze ui) with
      | none => none
      | some pd =>
        let s1 := { s with lastIntent := pd }
        if pd.intent == "question" then some s1
        else if pd.intent == "negation" || pd.intent == "dislike_statement" then
          some { s1 with state := DState.HANDLE_NEGATION }
        else
          let s2 :=
            if pd.intent == "preference" then
              let r1 := mergeOne s1 "cuisine" (prGet pd "cuisine")
              if r1.2 then ({ r1.1 with state := DState.CLARIFY_PREFERENCE }, true)
              else
                let r2 := mergeOne r1.1 "ingredient" (prGet pd "ingredient")
                if r2.2 then ({ r2.1 with state := DState.CLARIFY_PREFERENCE }, true)
                else (r2.1, false)
            else (s1, false)
          if s2.2 then some s2.1
          else
            let asked2 := askAdd (askAdd s2.1.asked "cuisine") "ingredient"
            some { s2.1 with asked := asked2, state := nextSecondary asked2 }
  | DState.ASKING_CATEGORY => stepSecondaryAsk cfg s "category" input
  | DState.ASKING_DIETARY => stepSecondaryAsk cfg s "dietary" input
  | DState.ASKING_DISLIKES => stepSecondaryAsk cfg s "dislikes" input
  | DState.CLARIFY_PREFERENCE =>
    match s.clarif with
    | none => none
    | some cd =>
      let ui := pyStripS input
      if pyLowerS ui == "quit" then some { s with state := DState.EXITING }
      else
        match parse_input_nlp ui cfg.lex (Asking.one cd.ctype) (cfg.analyze ui) with
        | none => none
        | some pc =>
          let best := (prGet pc cd.ctype).find? (fun o => cd.options.contains o)
          let newv := match best with | some b => [b] | none => cd.originalPrefs
          let asked2 := askAdd s.asked cd.ctype
          some { s with
            prefs := prefsSet s.prefs cd.ctype newv
            clarif := none
            asked := asked2
            state := nextSecondary asked2 }
  | DState.READY_TO_SEARCH =>
    let conf := pyLowerS (pyStripS input)
    if conf == "yes" then some { s with state := DState.SEARCHING }
    else if conf == "quit" then some { s with state := DState.EXITING }
    else some { s with asked := [], state := DState.ASKING_CUISINE_INGREDIENT }
  | _ => some s

/-- Driving the controller loop over a finite script of input lines:
states that read input consume the next line, the others step on their own;
the loop stops at `EXITING`, when the script (or the fuel) runs out on a
reading state, and `none` models an uncaught Python exception. -/
def run (cfg : Cfg) : Nat → Session → List String → Option Session
  | 0, s, _ => some s
  | fuel + 1, s, inputs =>
    if s.state = DState.EXITING then some s
    else if readsInput s then
      match inputs with
      | [] => some s
      | i :: rest =>
        match stepInput cfg s i with
        | none => none
        | some s2 => run cfg fuel s2 rest
    else
      match stepAuto s with
      | none => none
      | some s2 => run cfg fuel s2 inputs

/-! ### Concrete instances used by the claim theorems, their witnesses and
counterexamples.  The token lists are spaCy-plausible analyses of the
lowercased inputs (lemma, dependency, head index, part of speech, char
offsets). -/

/-- A lexicon with an `italian` cuisine phrase and a `mushrooms` dislike. -/
def lexItalianMush : Lexicon :=
  [("cuisine", [("italian", ["italian food"])]),
   ("dislikes", [("mushrooms", ["mushrooms"])])]

/-- Analysis of "no italian food and mushrooms". -/
def docNoItalianMush : List Token :=
  [⟨"no", "no", "det", 2, "DET", 0, 2⟩,
   ⟨"italian", "italian", "amod", 2, "ADJ", 3, 10⟩,
   ⟨"food", "food", "ROOT", 2, "NOUN", 11, 15⟩,
   ⟨"and", "and", "cc", 2, "CCONJ", 16, 19⟩,
   ⟨"mushrooms", "mushroom", "conj", 2, "NOUN", 20, 29⟩]

/-- A lexicon with only the `italian` cuisine phrase (plus an empty
`dislikes` category so that the `dislikes` bucket exists). -/
def lexItalian : Lexicon := [("cuisine", [("italian", ["italian food"])]), ("dislikes", [])]

/-- Analysis of "italian food". -/
def docItalianFood : List Token :=
  [⟨"italian", "italian", "amod", 1, "ADJ", 0, 7⟩,
   ⟨"food", "food", "ROOT", 1, "NOUN", 8, 12⟩]

/-- Analysis of "no italian food". -/
def docNoItalianFood : List Token :=
  [⟨"no", "no", "det", 2, "DET", 0, 2⟩,
   ⟨"italian", "italian", "amod", 2, "ADJ", 3, 10⟩,
   ⟨"food", "food", "ROOT", 2, "NOUN", 11, 15⟩]

/-- A controller lexicon covering all interview categories. -/
def lexController : Lexicon :=
  [("cuisine", [("italian", ["italian"])]),
   ("ingredient", [("chicken", ["chicken"])]),
   ("category", [("dessert", ["dessert"])]),
   ("dietary", [("vegetarian", ["vegetarian"])]),
   ("dislikes", [])]

/-- Analysis of "without chicken" (the token is the object of the
preposition `without`, which the single-token negation test detects). -/
def docWithoutChicken : List Token :=
  [⟨"without", "without", "prep", 0, "ADP", 0, 7⟩,
   ⟨"chicken", "chicken", "pobj", 0, "NOUN", 8, 15⟩]

/-- Analysis of "chicken". -/
def docChicken : List Token := [⟨"chicken", "chicken", "ROOT", 0, "NOUN", 0, 7⟩]

/-- The analyzer oracle for the controller traces. -/
def analyzerDemo : String → List Token := fun s =>
  if s = "without chicken" then docWithoutChicken
  else if s = "chicken" then docChicken
  else []

/-- The controller configuration for the concrete traces. -/
def cfgDemo : Cfg := ⟨lexController, analyzerDemo, ⟨[], [], []⟩⟩

/-- The session reached by the script
`["without chicken", "skip", "skip", "no", "chicken"]`: the user dislikes
chicken, skips the remaining questions, declines the search, and then names
chicken as an ingredient. -/
def sessOverlap : Session :=
  ⟨[("cuisine", []), ("ingredient", ["chicken"]), ("category", []), ("dietary", []),
    ("dislikes", ["chicken"])],
   DState.ASKING_CATEGORY, ["ingredient", "cuisine"], none,
   ⟨"preference", [("ingredient", ["chicken"])], []⟩⟩

/-- The session reached by `["without chicken", "skip", "skip"]`: ready to
search with dislikes only. -/
def sessDislikesReady : Session :=
  ⟨[("cuisine", []), ("ingredient", []), ("category", []), ("dietary", []),
    ("dislikes", ["chicken"])],
   DState.READY_TO_SEARCH, ["dislikes", "category", "dietary"], none,
   ⟨"negation", [("negated", ["chicken"])], []⟩⟩

/-- The session reached by `["without chicken", "skip", "skip", "yes"]`:
searching with every primary category empty. -/
def sessDislikesSearching : Session :=
  ⟨[("cuisine", []), ("ingredient", []), ("category", []), ("dietary", []),
    ("dislikes", ["chicken"])],
   DState.SEARCHING, ["dislikes", "category", "dietary"], none,
   ⟨"negation", [("negated", ["chicken"])], []⟩⟩

/-- A ready-to-search session whose only non-empty category is `dietary`
(positive but not primary). -/
def sessReadyDietary : Session :=
  ⟨[("cuisine", []), ("ingredient", []), ("category", []), ("dietary", ["vegetarian"]),
    ("dislikes", [])],
   DState.READY_TO_SEARCH, ["cuisine", "dietary"], none, ⟨"", [], []⟩⟩

/-- A lexicon with a vegetarian dietary tag and a chicken/beef known-meat
family. -/
def lexVegMeat : Lexicon :=
  [("dietary", [("vegetarian", ["vegetarian"])]),
   ("known_meats", [("chicken", ["chicken"]), ("beef", ["beef"])])]

/-- Preferences with an active vegetarian dietary tag. -/
def prefsVegetarian : List (String × List String) := [("dietary", ["vegetarian"])]

/-- A detail record whose ingredient list contains a chicken-broth line. -/
def detailChickenBroth : MealDetail :=
  ⟨["1 cup chicken broth"], "Chicken Soup", "Starter", "American"⟩

/-- A detail record with only non-violating ingredient lines. -/
def detailVegBroth : MealDetail :=
  ⟨["2 cups vegetable broth", "1 onion"], "Veg Soup", "Starter", "American"⟩

/-- A detail record whose single line contains the meat keyword `chicken`
but also the overriding `vegetable broth` qualifier. -/
def detailChickenFlavored : MealDetail :=
  ⟨["2 cups chicken-flavored vegetable broth"], "Veg Soup", "Starter", "American"⟩

/-- A lexicon whose `dislikes` category itself carries a multi-word
keyword phrase. -/
def lexDislikesMush : Lexicon := [("dislikes", [("mushrooms", ["funny mushrooms"])])]

/-- Analysis of "funny mushrooms". -/
def docFunnyMush : List Token :=
  [⟨"funny", "funny", "amod", 1, "ADJ", 0, 5⟩,
   ⟨"mushrooms", "mushroom", "ROOT", 1, "NOUN", 6, 15⟩]

/-- A lexicon where a constituent word of a cuisine phrase is itself a
single-word keyword of a different (ingredient) tag. -/
def lexPhraseWord : Lexicon :=
  [("cuisine", [("italian", ["italian food"])]),
   ("ingredient", [("food_generic", ["food"])])]

/-! ### Generic fold lemmas -/

/-- Invariant preservation along `List.foldlM` in the `Option` monad. -/
theorem foldlM_option_inv {α β : Type} (P : β → Prop) (f : β → α → Option β)
    (l : List α) (hf : ∀ b a b', a ∈ l → P b → f b a = some b' → P b') :
    ∀ b b', P b → l.foldlM f b = some b' → P b' := by
  induction l with
  | nil => intro b b' hP h; simp [List.foldlM] at h; simpa [← h] using hP
  | cons a t ih =>
    intro b b' hP h
    rw [List.foldlM_cons] at h
    rcases Option.bind_eq_some.mp h with ⟨b2, hb2, hrest⟩
    exact ih (fun b a' b' ha' => hf b a' b' (List.mem_cons_of_mem _ ha'))
      b2 b' (hf b a b2 (List.mem_cons_self _ _) hP hb2) hrest

/-- If some list element establishes `P` and every element preserves it,
a successful fold ends in a state satisfying `P`. -/
theorem foldlM_option_reach {α β : Type} (P : β → Prop) (f : β → α → Option β)
    (l : List α) (ev : α) (hev : ev ∈ l)
    (hstep : ∀ b b', f b ev = some b' → P b')
    (hpres : ∀ b a b', a ∈ l → P b → f b a = some b' → P b') :
    ∀ b b', l.foldlM f b = some b' → P b' := by
  obtain ⟨s, t, rfl⟩ := List.append_of_mem hev
  intro b b' h
  rw [List.foldlM_append] at h
  rcases Option.bind_eq_some.mp h with ⟨b1, _, hrest⟩
  rw [List.foldlM_cons] at hrest
  rcases Option.bind_eq_some.mp hrest with ⟨b2, hb2, htail⟩
  exact foldlM_option_inv P f t
    (fun b a b' ha => hpres b a b' (by simp [ha]))
    b2 b' (hstep b1 b2 hb2) htail

/-! ### Bucket lemmas for the entity map -/

theorem lookup_cons_pair {β : Type} (b pk : String) (pv : β) (t : List (String × β)) :
    List.lookup b ((pk, pv) :: t) = if b = pk then some pv else List.lookup b t := by
  by_cases h : b = pk
  · simp [List.lookup, h]
  · have hb : (b == pk) = false := by simp [h]
    simp [List.lookup, hb, h]

theorem lookup_emSetAll (m : EntMap) (k : String) (l : List String) (b : String) :
    List.lookup b (emSetAll m k l) =
      if b = k then (List.lookup b m).map (fun _ => l) else List.lookup b m := by
  induction m with
  | nil => simp [emSetAll]
  | cons p t ih =>
    obtain ⟨pk, pv⟩ := p
    have hc : emSetAll ((pk, pv) :: t) k l =
        (if pk = k then (pk, l) else (pk, pv)) :: emSetAll t k l := rfl
    rw [hc]
    by_cases hpk : pk = k
    · subst hpk
      by_cases hbk : b = pk
      · subst hbk
        simp [lookup_cons_pair]
      · simp [lookup_cons_pair, hbk, ih]
    · by_cases hbk : b = pk
      · subst hbk
        simp [lookup_cons_pair, hpk]
      · simp [lookup_cons_pair, hpk, hbk, ih]

theorem emAppendNew_self {m m' : EntMap} {k v : String}
    (h : emAppendNew m k v = some m') : v ∈ emGet m' k := by
  unfold emAppendNew at h
  cases hl : List.lookup k m with
  | none => simp [hl] at h
  | some l =>
    rw [hl] at h
    by_cases hv : v ∈ l
    · simp [hv] at h; simp [← h, emGet, hl, hv]
    · simp [hv] at h
      simp [← h, emGet, lookup_emSetAll, hl]

theorem emAppendNew_get {m m' : EntMap} {k v : String}
    (h : emAppendNew m k v = some m') (b : String) :
    emGet m' b = emGet m b ∨ (b = k ∧ emGet m' b = emGet m b ++ [v]) := by
  unfold emAppendNew at h
  cases hl : List.lookup k m with
  | none => simp [hl] at h
  | some l =>
    rw [hl] at h
    by_cases hv : v ∈ l
    · simp [hv] at h; left; rw [← h]
    · simp [hv] at h
      by_cases hbk : b = k
      · right
        refine ⟨hbk, ?_⟩
        simp [← h, emGet, lookup_emSetAll, hbk, hl]
      · left; simp [← h, emGet, lookup_emSetAll, hbk]

theorem emAppendNew_mono {m m' : EntMap} {k v : String}
    (h : emAppendNew m k v = some m') (b : String) {x : String}
    (hx : x ∈ emGet m b) : x ∈ emGet m' b := by
  rcases emAppendNew_get h b with heq | ⟨_, heq⟩ <;> simp [heq, hx]

theorem emAppendNew_origin {m m' : EntMap} {k v : String}
    (h : emAppendNew m k v = some m') (b : String) {x : String}
    (hx : x ∈ emGet m' b) : x ∈ emGet m b ∨ (b = k ∧ x = v) := by
  rcases emAppendNew_get h b with heq | ⟨hbk, heq⟩
  · left; rwa [heq] at hx
  · rw [heq] at hx
    rcases List.mem_append.mp hx with hx | hx
    · exact Or.inl hx
    · exact Or.inr ⟨hbk, by simpa using hx⟩

theorem emAppendNew_ne {m m' : EntMap} {k v : String}
    (h : emAppendNew m k v = some m') {b : String} (hb : b ≠ k) :
    emGet m' b = emGet m b := by
  rcases emAppendNew_get h b with heq | ⟨hbk, _⟩
  · exact heq
  · exact absurd hbk hb

/-- Elimination of a successful `recordKey`. -/
theorem recordKey_elim {st st' : PState} {t k : String}
    (h : recordKey st t k = some st') :
    emAppendNew st.ents t k = some st'.ents ∧ st'.attrs = st.attrs ∧
    st'.matchedIdx = st.matchedIdx ∧
    st'.intent = (if t = "dislikes" ∧ st.intent = "preference" then "dislike_statement"
                  else st.intent) := by
  unfold recordKey at h
  by_cases ht : t = "attributes"
  · rw [if_pos (by simp [ht])] at h; cases h
  · rw [if_neg (by simp [ht])] at h
    cases he : emAppendNew st.ents t k with
    | none => rw [he] at h; cases h
    | some e =>
      rw [he] at h
      simp only [Option.some.injEq] at h
      subst h
      refine ⟨by simp [he], rfl, rfl, ?_⟩
      by_cases h1 : t = "dislikes" <;> by_cases h2 : st.intent = "preference" <;>
        simp [h1, h2]

theorem emAppendNew_ne_nil {m m' : EntMap} {k v : String}
    (h : emAppendNew m k v = some m') (b : String) (hb : emGet m b ≠ []) :
    emGet m' b ≠ [] := by
  rcases List.exists_mem_of_ne_nil _ hb with ⟨x, hx⟩
  have hx2 := emAppendNew_mono h b hx
  intro hc
  rw [hc] at hx2
  exact List.not_mem_nil x hx2

/-! ### The intent/bucket invariant of both matching passes -/

/-- The running intent is one of the three in-loop values, a `negation`
intent witnesses a non-empty `negated` bucket, and a `dislike_statement`
intent witnesses a non-empty `dislikes` bucket. -/
def IntentInv (st : PState) : Prop :=
  (st.intent = "preference" ∨ st.intent = "negation" ∨ st.intent = "dislike_statement") ∧
  (st.intent = "negation" → emGet st.ents "negated" ≠ []) ∧
  (st.intent = "dislike_statement" → emGet st.ents "dislikes" ≠ [])

/-- Every recording site preserves the invariant: the recorded target and
the intermediate intent update always match one of the two code shapes. -/
theorem recordKey_inv {st st' : PState} {t k i1 : String}
    (hinv : IntentInv st)
    (hi : i1 = st.intent ∨ (i1 = "negation" ∧ t = "negated" ∧ st.intent = "preference"))
    (hrec : recordKey { st with intent := i1 } t k = some st') :
    IntentInv st' := by
  obtain ⟨happ, _, _, hint⟩ := recordKey_elim hrec
  obtain ⟨hone, htwo, hthree⟩ := hinv
  by_cases ht : t = "dislikes"
  · subst ht
    have hkmem : k ∈ emGet st'.ents "dislikes" := emAppendNew_self happ
    have hdne : emGet st'.ents "dislikes" ≠ [] := by
      intro hc; rw [hc] at hkmem; exact List.not_mem_nil k hkmem
    have hi1 : i1 = st.intent := by
      rcases hi with h | ⟨_, h, _⟩
      · exact h
      · exact absurd h (by decide)
    subst hi1
    by_cases hpref : st.intent = "preference"
    · have hd2 : st'.intent = "dislike_statement" := by
        rw [hint, if_pos ⟨rfl, hpref⟩]
      refine ⟨Or.inr (Or.inr hd2), ?_, ?_⟩
      · intro hneg; rw [hd2] at hneg; exact absurd hneg (by decide)
      · intro _; exact hdne
    · have hd2 : st'.intent = st.intent := by
        rw [hint, if_neg]
        rintro ⟨_, hc⟩; exact hpref hc
      refine ⟨by rw [hd2]; exact hone, ?_, ?_⟩
      · intro hneg; rw [hd2] at hneg
        exact emAppendNew_ne_nil happ _ (htwo hneg)
      · intro _; exact hdne
  · have hd2 : st'.intent = i1 := by
      rw [hint, if_neg]; rintro ⟨hc, _⟩; exact ht hc
    have hdis : emGet st'.ents "dislikes" = emGet st.ents "dislikes" :=
      emAppendNew_ne happ (fun hc => ht hc.symm)
    rcases hi with hi1 | ⟨hneg1, hneg2, _⟩
    · subst hi1
      refine ⟨by rw [hd2]; exact hone, ?_, ?_⟩
      · intro hneg; rw [hd2] at hneg
        exact emAppendNew_ne_nil happ _ (htwo hneg)
      · intro hd; rw [hd2] at hd
        rw [hdis]
        exact hthree hd
    · subst hneg1
      subst hneg2
      have hkmem : k ∈ emGet st'.ents "negated" := emAppendNew_self happ
      refine ⟨by rw [hd2]; exact Or.inr (Or.inl rfl), ?_, ?_⟩
      · intro _
        intro hc; rw [hc] at hkmem; exact List.not_mem_nil k hkmem
      · intro hd; rw [hd2] at hd
        exact absurd hd (by decide)

/-- The phrase-pass target always matches one of the `recordKey_inv` shapes. -/
theorem phraseTarget_inv {st st' : PState} {ask : Asking} {pt k : String} {isNeg : Bool}
    (hinv : IntentInv st)
    (hrec : recordKey { st with intent := (phraseTarget ask pt st.intent isNeg).2 }
      (phraseTarget ask pt st.intent isNeg).1 k = some st') : IntentInv st' := by
  unfold phraseTarget at hrec
  by_cases hA : (askingIsDislikes ask && pt != "dislikes") = true
  · rw [if_pos hA] at hrec
    exact recordKey_inv hinv (Or.inl rfl) hrec
  · rw [if_neg hA] at hrec
    by_cases hB : (isNeg && pt != "dislikes") = true
    · rw [if_pos hB] at hrec
      by_cases hp : st.intent = "preference"
      · rw [show (if st.intent == "preference" then "negation" else st.intent) = "negation"
            from by simp [hp]] at hrec
        exact recordKey_inv hinv (Or.inr ⟨rfl, rfl, hp⟩) hrec
      · rw [show (if st.intent == "preference" then "negation" else st.intent) = st.intent
            from by simp [hp]] at hrec
        exact recordKey_inv hinv (Or.inl rfl) hrec
    · rw [if_neg hB] at hrec
      exact recordKey_inv hinv (Or.inl rfl) hrec

/-- The priority-pass target always matches one of the `recordKey_inv` shapes. -/
theorem tokenTargetPrio_inv {st st' : PState} {pt k : String} {isNeg : Bool}
    (hinv : IntentInv st)
    (hrec : recordKey { st with intent := (tokenTargetPrio pt st.intent isNeg).2 }
      (tokenTargetPrio pt st.intent isNeg).1 k = some st') : IntentInv st' := by
  unfold tokenTargetPrio at hrec
  by_cases hn : isNeg = true
  · by_cases hd : pt = "dislikes"
    · rw [show (if isNeg then (if pt != "dislikes" then "negated" else "dislikes") else pt) =
          "dislikes" from by simp [hn, hd]] at hrec
      rw [show (if isNeg && pt != "dislikes" && st.intent == "preference" then "negation"
          else st.intent) = st.intent from by simp [hd]] at hrec
      exact recordKey_inv hinv (Or.inl rfl) hrec
    · by_cases hp : st.intent = "preference"
      · rw [show (if isNeg then (if pt != "dislikes" then "negated" else "dislikes") else pt) =
            "negated" from by simp [hn, hd]] at hrec
        rw [show (if isNeg && pt != "dislikes" && st.intent == "preference" then "negation"
            else st.intent) = "negation" from by simp [hn, hd, hp]] at hrec
        exact recordKey_inv hinv (Or.inr ⟨rfl, rfl, hp⟩) hrec
      · rw [show (if isNeg then (if pt != "dislikes" then "negated" else "dislikes") else pt) =
            "negated" from by simp [hn, hd]] at hrec
        rw [show (if isNeg && pt != "dislikes" && st.intent == "preference" then "negation"
            else st.intent) = st.intent from by simp [hp]] at hrec
        exact recordKey_inv hinv (Or.inl rfl) hrec
  · rw [show (if isNeg then (if pt != "dislikes" then "negated" else "dislikes") else pt) = pt
        from by simp [hn]] at hrec
    rw [show (if isNeg && pt != "dislikes" && st.intent == "preference" then "negation"
        else st.intent) = st.intent from by simp [hn]] at hrec
    exact recordKey_inv hinv (Or.inl rfl) hrec

/-- The rest-pass target always matches one of the `recordKey_inv` shapes. -/
theorem tokenTargetRest_inv {st st' : PState} {pt k : String} {isNeg : Bool}
    (hinv : IntentInv st)
    (hrec : recordKey { st with intent := (tokenTargetRest pt st.intent isNeg).2 }
      (tokenTargetRest pt st.intent isNeg).1 k = some st') : IntentInv st' := by
  unfold tokenTargetRest at hrec
  by_cases hn : isNeg = true
  · by_cases hp : st.intent = "preference"
    · rw [show (if isNeg then "negated" else pt) = "negated" from by simp [hn]] at hrec
      rw [show (if isNeg && st.intent == "preference" then "negation" else st.intent) =
          "negation" from by simp [hn, hp]] at hrec
      exact recordKey_inv hinv (Or.inr ⟨rfl, rfl, hp⟩) hrec
    · rw [show (if isNeg then "negated" else pt) = "negated" from by simp [hn]] at hrec
      rw [show (if isNeg && st.intent == "preference" then "negation" else st.intent) =
          st.intent from by simp [hp]] at hrec
      exact recordKey_inv hinv (Or.inl rfl) hrec
  · rw [show (if isNeg then "negated" else pt) = pt from by simp [hn]] at hrec
    rw [show (if isNeg && st.intent == "preference" then "negation" else st.intent) =
        st.intent from by simp [hn]] at hrec
    exact recordKey_inv hinv (Or.inl rfl) hrec

/-- One phrase occurrence preserves the invariant. -/
theorem phraseOccStep_inv {doc : List Token} {textL : Str} {ask : Asking}
    {st st' : PState} {ev : PhraseEv}
    (hinv : IntentInv st) (h : phraseOccStep doc textL ask st ev = some st') :
    IntentInv st' := by
  unfold phraseOccStep at h
  cases hrk : recordKey
      { st with intent :=
          (phraseTarget ask ev.pt st.intent (phraseNegTest doc textL ev.kwL ev.occ)).2 }
      (phraseTarget ask ev.pt st.intent (phraseNegTest doc textL ev.kwL ev.occ)).1
      ev.key with
  | none => rw [hrk] at h; cases h
  | some st2 =>
    rw [hrk] at h
    cases h
    have hinv2 : IntentInv st2 := phraseTarget_inv hinv hrk
    exact ⟨hinv2.1, hinv2.2.1, hinv2.2.2⟩

/-- One token of the single-token pass preserves the invariant. -/
theorem tokenStep_inv {doc : List Token} {lex : Lexicon} {ask : Asking}
    {st st' : PState} {it : Nat × Token}
    (hinv : IntentInv st) (h : tokenStep doc lex ask st it = some st') :
    IntentInv st' := by
  unfold tokenStep at h
  by_cases hskip : st.matchedIdx.contains it.1
  · rw [if_pos hskip] at h
    cases h
    exact hinv
  · rw [if_neg hskip] at h
    cases hscan : scanTypes lex ((prioList ask).filter (fun t => t != "flavor"))
        (pyLowerS it.2.text) it.2.lemma_ with
    | some ptk =>
      rw [hscan] at h
      exact tokenTargetPrio_inv hinv h
    | none =>
      rw [hscan] at h
      cases hscan2 : scanRest lex (prioList ask) (pyLowerS it.2.text) it.2.lemma_ with
      | some ptk =>
        rw [hscan2] at h
        exact tokenTargetRest_inv hinv h
      | none =>
        rw [hscan2] at h
        by_cases hnoun : (it.2.pos_ == "NOUN") = true
        · rw [if_pos hnoun] at h
          cases hik : ingredientKeyForAttr lex (pyLowerS it.2.text) it.2.lemma_ with
          | some ik =>
            rw [hik] at h
            cases h
            exact hinv
          | none =>
            rw [hik] at h
            cases h
            exact hinv
        · rw [if_neg hnoun] at h
          cases h
          exact hinv

/-- The phrase pass preserves the invariant. -/
theorem phrasePass_inv {doc : List Token} {textL : Str} {ask : Asking} {lex : Lexicon}
    {st st' : PState} (hinv : IntentInv st) (h : phrasePass doc textL ask lex st = some st') :
    IntentInv st' :=
  foldlM_option_inv IntentInv _ _ (fun _ _ _ _ hP hstep => phraseOccStep_inv hP hstep)
    st st' hinv h

/-- The single-token pass preserves the invariant. -/
theorem tokenPass_inv {doc : List Token} {lex : Lexicon} {ask : Asking}
    {st st' : PState} (hinv : IntentInv st)
    (h : doc.enum.foldlM (tokenStep doc lex ask) st = some st') : IntentInv st' :=
  foldlM_option_inv IntentInv _ _ (fun _ _ _ _ hP hstep => tokenStep_inv hP hstep)
    st st' hinv h

/-- Dropping the empty buckets does not change a non-empty bucket. -/
theorem emGet_filter_of_ne_nil (m : EntMap) (b : String) (h : emGet m b ≠ []) :
    emGet (m.filter (fun p => !p.2.isEmpty)) b = emGet m b := by
  induction m with
  | nil => simp [emGet] at h
  | cons p t ih =>
    obtain ⟨pk, pv⟩ := p
    by_cases hb : b = pk
    · subst hb
      have hpv : pv ≠ [] := by simpa [emGet, lookup_cons_pair] using h
      have hne : (!pv.isEmpty) = true := by simp [hpv]
      simp [List.filter_cons, hne, emGet, lookup_cons_pair]
    · have h2 : emGet ((pk, pv) :: t) b = emGet t b := by
        simp [emGet, lookup_cons_pair, hb]
      rw [h2] at h ⊢
      by_cases hpv : pv.isEmpty
      · simpa [List.filter_cons, hpv] using ih h
      · have : (!pv.isEmpty) = true := by simp [hpv]
        rw [List.filter_cons, if_pos this]
        rw [show emGet ((pk, pv) :: List.filter (fun p => !p.2.isEmpty) t) b =
              emGet (List.filter (fun p => !p.2.isEmpty) t) b by
            simp [emGet, lookup_cons_pair, hb]]
        exact ih h

/-- Elimination of a successful parse into its three result shapes. -/
theorem parse_elim {text : String} {lex : Lexicon} {ask : Asking} {doc : List Token}
    {r : ParseResult} (h : parse_input_nlp text lex ask doc = some r) :
    r = ⟨"unknown", [], []⟩ ∨ r = ⟨"question", [], []⟩ ∨
    ∃ st1 st2,
      phrasePass doc (lowerStr text.toList) ask lex ⟨initEnts lex, [], "preference", []⟩ =
        some st1 ∧
      doc.enum.foldlM (tokenStep doc lex ask) st1 = some st2 ∧ r = finalizeParse st2 := by
  unfold parse_input_nlp at h
  by_cases h0 : lex.isEmpty
  · rw [if_pos h0] at h
    exact Or.inl (by cases h; rfl)
  · rw [if_neg h0] at h
    split at h
    · exact Or.inr (Or.inl (by cases h; rfl))
    · split at h
      · cases h
      next st1 hp =>
        split at h
        · cases h
        next st2 hq =>
          exact Or.inr (Or.inr ⟨st1, st2, hp, hq, by cases h; rfl⟩)

/-- The finalized result of an invariant-respecting pass state satisfies the
corrected intent relationship. -/
theorem finalizeParse_intent {st2 : PState} (hinv : IntentInv st2) :
    let r := finalizeParse st2
    (prGet r "dislikes" ≠ [] ∧ prGet r "negated" = [] → r.intent = "dislike_statement") ∧
    (prGet r "negated" ≠ [] ∧ prGet r "dislikes" = [] → r.intent = "negation") ∧
    (prGet r "dislikes" ≠ [] → r.intent = "dislike_statement" ∨ r.intent = "negation") := by
  obtain ⟨hone, htwo, hthree⟩ := hinv
  have hbridge : ∀ b : String, emGet st2.ents b ≠ [] →
      emGet (st2.ents.filter (fun p => !p.2.isEmpty)) b = emGet st2.ents b :=
    fun b => emGet_filter_of_ne_nil st2.ents b
  simp only [finalizeParse, prGet]
  rcases hone with hp | hn | hd
  · constructor
    · rintro ⟨hdne, hneq⟩
      have hA : (emGet (st2.ents.filter (fun p => !p.2.isEmpty)) "negated").isEmpty = true := by
        simp [hneq]
      simp [hp, hA, hdne]
    · constructor
      · rintro ⟨hnne, _⟩
        have : (emGet (st2.ents.filter (fun p => !p.2.isEmpty)) "negated").isEmpty = false := by
          simp [hnne]
        simp [hp, this]
      · intro hdne
        by_cases hA : emGet (st2.ents.filter (fun p => !p.2.isEmpty)) "negated" = []
        · left
          simp [hp, hA, hdne]
        · right
          have : (emGet (st2.ents.filter (fun p => !p.2.isEmpty)) "negated").isEmpty = false := by
            simp [hA]
          simp [hp, this]
  · have hst : emGet st2.ents "negated" ≠ [] := htwo hn
    have hA : emGet (st2.ents.filter (fun p => !p.2.isEmpty)) "negated" ≠ [] := by
      rw [hbridge _ hst]; exact hst
    constructor
    · rintro ⟨_, hneq⟩
      exact absurd hneq hA
    · constructor
      · rintro ⟨_, _⟩
        simp [hn]
      · intro _
        right
        simp [hn]
  · have hst : emGet st2.ents "dislikes" ≠ [] := hthree hd
    have hB : emGet (st2.ents.filter (fun p => !p.2.isEmpty)) "dislikes" ≠ [] := by
      rw [hbridge _ hst]; exact hst
    constructor
    · rintro ⟨_, _⟩
      simp [hd]
    · constructor
      · rintro ⟨_, hdeq⟩
        exact absurd hdeq hB
      · intro _
        left
        simp [hd]

/-! ### Claim theorems: the parser -/

/-- C9: for every input text, if the lexicon passed to `parse_input_nlp` is
empty or absent (Python `None` and `{}` are both falsy, so both take the
guard of line 51), the parse returns intent `unknown` with no entities and
raises no error. -/
theorem parse_empty_lexicon_unknown (text : String) (ask : Asking) (doc : List Token) :
    parse_input_nlp text [] ask doc = some ⟨"unknown", [], []⟩ := rfl

/-- C3, counterexample: on "no italian food and mushrooms" (negated cuisine
phrase first, then a `dislikes` keyword) the returned entities have a
non-empty `dislikes` bucket while the intent is `negation`, not
`dislike_statement`, refuting the claimed invariant. -/
theorem parse_intent_c3_counterexample :
    parse_input_nlp "no italian food and mushrooms" lexItalianMush Asking.nothing
        docNoItalianMush =
      some ⟨"negation", [("dislikes", ["mushrooms"]), ("negated", ["italian"])], []⟩ ∧
    prGet ⟨"negation", [("dislikes", ["mushrooms"]), ("negated", ["italian"])], []⟩
        "dislikes" ≠ [] ∧
    ("negation" : String) ≠ "dislike_statement" :=
  ⟨rfl, by decide, by decide⟩

/-- C3 (amended): for every text, lexicon and analysis, a returned
`ParseResult` satisfies: a non-empty `dislikes` bucket with an empty
`negated` bucket forces intent `dislike_statement`; a non-empty `negated`
bucket with an empty `dislikes` bucket forces intent `negation`; and a
non-empty `dislikes` bucket always forces intent `dislike_statement` or
`negation` (when both buckets are non-empty the intent may remain
`negation`, which is what refutes the original claim). -/
theorem parse_intent_invariant (text : String) (lex : Lexicon) (ask : Asking)
    (doc : List Token) (r : ParseResult)
    (h : parse_input_nlp text lex ask doc = some r) :
    (prGet r "dislikes" ≠ [] ∧ prGet r "negated" = [] → r.intent = "dislike_statement") ∧
    (prGet r "negated" ≠ [] ∧ prGet r "dislikes" = [] → r.intent = "negation") ∧
    (prGet r "dislikes" ≠ [] → r.intent = "dislike_statement" ∨ r.intent = "negation") := by
  rcases parse_elim h with hr | hr | ⟨st1, st2, hp, hq, hr⟩
  · subst hr
    refine ⟨?_, ?_, ?_⟩ <;> simp [prGet, emGet]
  · subst hr
    refine ⟨?_, ?_, ?_⟩ <;> simp [prGet, emGet]
  · subst hr
    have hinv0 : IntentInv ⟨initEnts lex, [], "preference", []⟩ := by
      refine ⟨Or.inl rfl, ?_, ?_⟩ <;> intro hc <;> simp at hc
    exact finalizeParse_intent (tokenPass_inv (phrasePass_inv hinv0 hp) hq)

/-- Witness for the C3 theorem at the counterexample input. -/
theorem parse_intent_invariant_witness :
    (parse_input_nlp "no italian food and mushrooms" lexItalianMush Asking.nothing
        docNoItalianMush =
      some ⟨"negation", [("dislikes", ["mushrooms"]), ("negated", ["italian"])], []⟩) ∧
    (prGet ⟨"negation", [("dislikes", ["mushrooms"]), ("negated", ["italian"])], []⟩
        "dislikes" ≠ [] →
      (⟨"negation", [("dislikes", ["mushrooms"]), ("negated", ["italian"])], []⟩ :
        ParseResult).intent = "dislike_statement" ∨
      (⟨"negation", [("dislikes", ["mushrooms"]), ("negated", ["italian"])], []⟩ :
        ParseResult).intent = "negation") :=
  ⟨rfl,
    (parse_intent_invariant "no italian food and mushrooms" lexItalianMush Asking.nothing
      docNoItalianMush _ rfl).2.2⟩

/-! ### Preference-store lemmas -/

theorem lookup_append {β : Type} (b : String) (l1 l2 : List (String × β)) :
    List.lookup b (l1 ++ l2) =
      match List.lookup b l1 with
      | some v => some v
      | none => List.lookup b l2 := by
  induction l1 with
  | nil => simp
  | cons p t ih =>
    obtain ⟨pk, pv⟩ := p
    by_cases hb : b = pk
    · simp [lookup_cons_pair, hb]
    · simp [lookup_cons_pair, hb, ih]

theorem prefsGet_prefsSet_self (p : List (String × List String)) (k : String)
    (v : List String) : prefsGet (prefsSet p k v) k = v := by
  unfold prefsSet prefsGet
  by_cases h : (List.lookup k p).isSome
  · rw [if_pos h, lookup_emSetAll]
    obtain ⟨l, hl⟩ := Option.isSome_iff_exists.mp h
    simp [hl]
  · rw [if_neg h, lookup_append]
    have hnone : List.lookup k p = none := Option.not_isSome_iff_eq_none.mp h
    simp [hnone, lookup_cons_pair]

theorem prefsGet_prefsSet_ne (p : List (String × List String)) (k : String)
    (v : List String) {b : String} (hb : b ≠ k) :
    prefsGet (prefsSet p k v) b = prefsGet p b := by
  unfold prefsSet prefsGet
  by_cases h : (List.lookup k p).isSome
  · rw [if_pos h, lookup_emSetAll, if_neg hb]
  · rw [if_neg h, lookup_append]
    cases hb2 : List.lookup b p <;> simp [lookup_cons_pair, hb]

theorem lookup_of_prefsGet_ne_nil {q : List (String × List String)} {k : String}
    (h : prefsGet q k ≠ []) : List.lookup k q = some (prefsGet q k) := by
  unfold prefsGet at h ⊢
  cases hl : List.lookup k q
  · rw [hl] at h; simp at h
  · rfl

theorem prefsGet_negRemoveStep (tag : String) (q : List (String × List String))
    (plt b : String) :
    prefsGet (negRemoveStep tag q plt) b =
      if b = plt ∧ tag ∈ prefsGet q plt then (prefsGet q plt).erase tag
      else prefsGet q b := by
  unfold negRemoveStep
  by_cases hm : tag ∈ prefsGet q plt
  · rw [if_pos hm]
    by_cases hb : b = plt
    · subst hb
      rw [if_pos ⟨rfl, hm⟩, prefsGet_prefsSet_self]
    · rw [if_neg (fun hc => hb hc.1), prefsGet_prefsSet_ne _ _ _ hb]
  · rw [if_neg hm, if_neg (fun hc => hm hc.2)]

theorem prefsGet_negRemoveStep_ne (tag : String) (q : List (String × List String))
    {plt b : String} (hb : b ≠ plt) :
    prefsGet (negRemoveStep tag q plt) b = prefsGet q b := by
  rw [prefsGet_negRemoveStep, if_neg (fun hc => hb hc.1)]

theorem negRemoveStep_not_mem_self (tag : String) (q : List (String × List String))
    (plt : String) (hnd : (prefsGet q plt).Nodup) :
    tag ∉ prefsGet (negRemoveStep tag q plt) plt := by
  rw [prefsGet_negRemoveStep]
  by_cases hm : tag ∈ prefsGet q plt
  · rw [if_pos ⟨rfl, hm⟩]
    intro hc
    exact ((List.Nodup.mem_erase_iff hnd).mp hc).1 rfl
  · rw [if_neg (fun hc => hm hc.2)]
    exact hm

theorem negRemoveStep_subset (tag : String) (q : List (String × List String))
    (plt b : String) : prefsGet (negRemoveStep tag q plt) b ⊆ prefsGet q b := by
  rw [prefsGet_negRemoveStep]
  by_cases hc : b = plt ∧ tag ∈ prefsGet q plt
  · rw [if_pos hc, hc.1]
    exact List.erase_subset _ _
  · rw [if_neg hc]
    exact fun _ hx => hx

theorem negRemoveStep_nodup (tag : String) (q : List (String × List String))
    (plt b : String) (h : (prefsGet q b).Nodup) :
    (prefsGet (negRemoveStep tag q plt) b).Nodup := by
  rw [prefsGet_negRemoveStep]
  by_cases hc : b = plt ∧ tag ∈ prefsGet q plt
  · rw [if_pos hc, ← hc.1]
    exact h.erase tag
  · rwa [if_neg hc]

theorem negRemoveStep_of_not_mem {tag : String} {q : List (String × List String)}
    {plt : String} (hm : tag ∉ prefsGet q plt) : negRemoveStep tag q plt = q := by
  unfold negRemoveStep
  rw [if_neg hm]

theorem negateTag_elim {p q : List (String × List String)} {tag : String}
    (h : negateTag p tag = some q) :
    ∃ dl, List.lookup "dislikes" p = some dl ∧
      q = ["cuisine", "ingredient", "category", "dietary"].foldl (negRemoveStep tag)
        (if tag ∈ dl then p else prefsSet p "dislikes" (dl ++ [tag])) := by
  unfold negateTag at h
  cases hdl : List.lookup "dislikes" p with
  | none => rw [hdl] at h; cases h
  | some dl =>
    rw [hdl] at h
    cases h
    exact ⟨dl, rfl, rfl⟩

/-- Reading a bucket of the base state of the negation loop: only
`dislikes` may change. -/
theorem prefsGet_negBase_ne {p : List (String × List String)} {dl : List String}
    {tag b : String} (hb : b ≠ "dislikes") :
    prefsGet (if tag ∈ dl then p else prefsSet p "dislikes" (dl ++ [tag])) b =
      prefsGet p b := by
  by_cases hm : tag ∈ dl
  · rw [if_pos hm]
  · rw [if_neg hm, prefsGet_prefsSet_ne _ _ _ hb]

theorem prefsGet_negBase_dislikes {p : List (String × List String)} {dl : List String}
    {tag : String} (hdl : List.lookup "dislikes" p = some dl) :
    tag ∈ prefsGet (if tag ∈ dl then p else prefsSet p "dislikes" (dl ++ [tag]))
      "dislikes" := by
  by_cases hm : tag ∈ dl
  · rw [if_pos hm]
    unfold prefsGet
    rw [hdl]
    exact hm
  · rw [if_neg hm, prefsGet_prefsSet_self]
    simp

theorem negateTag_mem_dislikes {p q : List (String × List String)} {tag : String}
    (h : negateTag p tag = some q) : tag ∈ prefsGet q "dislikes" := by
  obtain ⟨dl, hdl, hq⟩ := negateTag_elim h
  subst hq
  simp only [List.foldl_cons, List.foldl_nil]
  rw [prefsGet_negRemoveStep_ne _ _ (by decide), prefsGet_negRemoveStep_ne _ _ (by decide),
    prefsGet_negRemoveStep_ne _ _ (by decide), prefsGet_negRemoveStep_ne _ _ (by decide)]
  exact prefsGet_negBase_dislikes hdl

theorem negateTag_not_mem_positive {p q : List (String × List String)} {tag : String}
    (hnd : ∀ c ∈ (["cuisine", "ingredient", "category", "dietary"] : List String),
      (prefsGet p c).Nodup)
    (h : negateTag p tag = some q) :
    ∀ c ∈ (["cuisine", "ingredient", "category", "dietary"] : List String),
      tag ∉ prefsGet q c := by
  obtain ⟨dl, hdl, hq⟩ := negateTag_elim h
  subst hq
  simp only [List.foldl_cons, List.foldl_nil]
  have hnd2 : ∀ c2 ∈ (["cuisine", "ingredient", "category", "dietary"] : List String),
      (prefsGet (if tag ∈ dl then p else prefsSet p "dislikes" (dl ++ [tag])) c2).Nodup := by
    intro c2 hc2
    have hne2 : c2 ≠ "dislikes" := by
      simp only [List.mem_cons, List.not_mem_nil, or_false] at hc2
      rcases hc2 with rfl | rfl | rfl | rfl <;> decide
    rw [prefsGet_negBase_ne hne2]
    exact hnd c2 hc2
  intro c hc
  simp only [List.mem_cons, List.not_mem_nil, or_false] at hc
  rcases hc with rfl | rfl | rfl | rfl
  · rw [prefsGet_negRemoveStep_ne _ _ (by decide), prefsGet_negRemoveStep_ne _ _ (by decide),
      prefsGet_negRemoveStep_ne _ _ (by decide)]
    exact negRemoveStep_not_mem_self _ _ _ (hnd2 _ (by decide))
  · rw [prefsGet_negRemoveStep_ne _ _ (by decide), prefsGet_negRemoveStep_ne _ _ (by decide)]
    exact negRemoveStep_not_mem_self _ _ _
      (negRemoveStep_nodup _ _ _ _ (hnd2 _ (by decide)))
  · rw [prefsGet_negRemoveStep_ne _ _ (by decide)]
    exact negRemoveStep_not_mem_self _ _ _
      (negRemoveStep_nodup _ _ _ _ (negRemoveStep_nodup _ _ _ _ (hnd2 _ (by decide))))
  · exact negRemoveStep_not_mem_self _ _ _
      (negRemoveStep_nodup _ _ _ _ (negRemoveStep_nodup _ _ _ _
        (negRemoveStep_nodup _ _ _ _ (hnd2 _ (by decide)))))

theorem negateTag_idem {p q : List (String × List String)} {tag : String}
    (hnd : ∀ c ∈ (["cuisine", "ingredient", "category", "dietary"] : List String),
      (prefsGet p c).Nodup)
    (h : negateTag p tag = some q) : negateTag q tag = some q := by
  have hmem := negateTag_mem_dislikes h
  have hnot := negateTag_not_mem_positive hnd h
  have hne : prefsGet q "dislikes" ≠ [] := by
    intro hc; rw [hc] at hmem; exact List.not_mem_nil tag hmem
  unfold negateTag
  rw [lookup_of_prefsGet_ne_nil hne]
  change some (List.foldl (negRemoveStep tag)
    (if tag ∈ prefsGet q "dislikes" then q
     else prefsSet q "dislikes" (prefsGet q "dislikes" ++ [tag]))
    ["cuisine", "ingredient", "category", "dietary"]) = some q
  rw [if_pos hmem]
  simp only [List.foldl_cons, List.foldl_nil]
  rw [negRemoveStep_of_not_mem (hnot _ (by decide)),
    negRemoveStep_of_not_mem (hnot _ (by decide)),
    negRemoveStep_of_not_mem (hnot _ (by decide)),
    negRemoveStep_of_not_mem (hnot _ (by decide))]

theorem negateTag_dislikes_mono {p q : List (String × List String)} {x t : String}
    (h : negateTag p x = some q) (ht : t ∈ prefsGet p "dislikes") :
    t ∈ prefsGet q "dislikes" := by
  obtain ⟨dl, hdl, hq⟩ := negateTag_elim h
  subst hq
  simp only [List.foldl_cons, List.foldl_nil]
  rw [prefsGet_negRemoveStep_ne _ _ (by decide), prefsGet_negRemoveStep_ne _ _ (by decide),
    prefsGet_negRemoveStep_ne _ _ (by decide), prefsGet_negRemoveStep_ne _ _ (by decide)]
  have hpd : prefsGet p "dislikes" = dl := by unfold prefsGet; rw [hdl]; rfl
  by_cases hm : x ∈ dl
  · rw [if_pos hm]; exact ht
  · rw [if_neg hm, prefsGet_prefsSet_self]
    rw [hpd] at ht
    exact List.mem_append_left _ ht

theorem negateTag_positive_subset {p q : List (String × List String)} {x : String}
    (h : negateTag p x = some q) {b : String} (hb : b ≠ "dislikes") :
    prefsGet q b ⊆ prefsGet p b := by
  obtain ⟨dl, hdl, hq⟩ := negateTag_elim h
  subst hq
  simp only [List.foldl_cons, List.foldl_nil]
  intro t ht
  have h4 := negRemoveStep_subset x _ "dietary" b ht
  have h3 := negRemoveStep_subset x _ "category" b h4
  have h2 := negRemoveStep_subset x _ "ingredient" b h3
  have h1 := negRemoveStep_subset x _ "cuisine" b h2
  rwa [prefsGet_negBase_ne hb] at h1

theorem negateTag_nodup_pres {p q : List (String × List String)} {x : String}
    (h : negateTag p x = some q) {b : String} (hb : b ≠ "dislikes")
    (hnd : (prefsGet p b).Nodup) : (prefsGet q b).Nodup := by
  obtain ⟨dl, hdl, hq⟩ := negateTag_elim h
  subst hq
  simp only [List.foldl_cons, List.foldl_nil]
  have h0 : (prefsGet (if x ∈ dl then p else prefsSet p "dislikes" (dl ++ [x])) b).Nodup := by
    rw [prefsGet_negBase_ne hb]; exact hnd
  exact negRemoveStep_nodup _ _ _ _ (negRemoveStep_nodup _ _ _ _
    (negRemoveStep_nodup _ _ _ _ (negRemoveStep_nodup _ _ _ _ h0)))

/-! ### Claim theorems: the preference store and the controller -/

/-- C5: negating a tag adds it to `dislikes`, removes it from every positive
category (given the duplicate-freeness every controller-built store has,
since merges always deduplicate), and negating the same tag again returns
exactly the same preference state. -/
theorem negate_tag_removes_and_idempotent (p q : List (String × List String)) (tag : String)
    (hnd : ∀ c ∈ (["cuisine", "ingredient", "category", "dietary"] : List String),
      (prefsGet p c).Nodup)
    (h : negateTag p tag = some q) :
    tag ∈ prefsGet q "dislikes" ∧
    (∀ c ∈ (["cuisine", "ingredient", "category", "dietary"] : List String),
      tag ∉ prefsGet q c) ∧
    negateTag q tag = some q :=
  ⟨negateTag_mem_dislikes h, negateTag_not_mem_positive hnd h, negateTag_idem hnd h⟩

/-- Witness for the C5 theorem: negating `chicken` in a store that holds it
as an ingredient. -/
theorem negate_tag_removes_and_idempotent_witness :
    negateTag [("cuisine", []), ("ingredient", ["chicken", "beef"]), ("category", []),
        ("dietary", []), ("dislikes", [])] "chicken" =
      some [("cuisine", []), ("ingredient", ["beef"]), ("category", []), ("dietary", []),
        ("dislikes", ["chicken"])] ∧
    "chicken" ∈ prefsGet [("cuisine", []), ("ingredient", ["beef"]), ("category", []),
        ("dietary", []), ("dislikes", ["chicken"])] "dislikes" ∧
    "chicken" ∉ prefsGet [("cuisine", []), ("ingredient", ["beef"]), ("category", []),
        ("dietary", []), ("dislikes", ["chicken"])] "ingredient" ∧
    negateTag [("cuisine", []), ("ingredient", ["beef"]), ("category", []), ("dietary", []),
        ("dislikes", ["chicken"])] "chicken" =
      some [("cuisine", []), ("ingredient", ["beef"]), ("category", []), ("dietary", []),
        ("dislikes", ["chicken"])] := by
  have h := negate_tag_removes_and_idempotent
    [("cuisine", []), ("ingredient", ["chicken", "beef"]), ("category", []),
      ("dietary", []), ("dislikes", [])]
    [("cuisine", []), ("ingredient", ["beef"]), ("category", []), ("dietary", []),
      ("dislikes", ["chicken"])]
    "chicken" (by decide) rfl
  exact ⟨rfl, h.1, h.2.1 _ (by decide), h.2.2⟩

/-- Fold-reachability with an auxiliary invariant: if `Q` is preserved by
every step, the event step establishes `P` from `Q`, and every step
preserves `P`, then a successful fold over a list containing the event ends
in a state satisfying `P`. -/
theorem foldlM_option_reach2 {α β : Type} (P Q : β → Prop) (f : β → α → Option β)
    (l : List α) (ev : α) (hev : ev ∈ l)
    (hQ : ∀ b a b', a ∈ l → Q b → f b a = some b' → Q b')
    (hstep : ∀ b b', Q b → f b ev = some b' → P b')
    (hpres : ∀ b a b', a ∈ l → P b → f b a = some b' → P b') :
    ∀ b b', Q b → l.foldlM f b = some b' → P b' := by
  obtain ⟨s, t, rfl⟩ := List.append_of_mem hev
  intro b b' hQ0 h
  rw [List.foldlM_append] at h
  rcases Option.bind_eq_some.mp h with ⟨b1, hpre, hrest⟩
  rw [List.foldlM_cons] at hrest
  rcases Option.bind_eq_some.mp hrest with ⟨b2, hb2, htail⟩
  have hQ1 : Q b1 :=
    foldlM_option_inv Q f s (fun b a b' ha => hQ b a b' (by simp [ha])) b b1 hQ0 hpre
  exact foldlM_option_inv P f t
    (fun b a b' ha => hpres b a b' (by simp [ha]))
    b2 b' (hstep b1 b2 hQ1 hb2) htail

/-- C4, counterexample: the dislikes/positive disjointness fails in a
reachable controller state.  The user says "without chicken" (recorded as a
dislike), skips the remaining questions, declines the search confirmation,
and then answers "chicken" to the re-asked cuisine/ingredient question: the
merge of lines 446-460 does not consult `dislikes`, so `chicken` ends up in
both `dislikes` and `ingredient`. -/
theorem controller_dislike_overlap_counterexample :
    run cfgDemo 12 (initSession lexController)
        ["without chicken", "skip", "skip", "no", "chicken"] = some sessOverlap ∧
    "chicken" ∈ prefsGet sessOverlap.prefs "dislikes" ∧
    "chicken" ∈ prefsGet sessOverlap.prefs "ingredient" :=
  ⟨rfl, by decide, by decide⟩

/-- C4 (amended): the negation-handling step itself does establish the
disjointness — every tag it processes ends up in `dislikes` and in no
positive category (assuming the duplicate-free buckets every
controller-built store has).  Merging parsed entities, by contrast, does
not consult `dislikes`, which is what the counterexample exploits. -/
theorem handle_negation_establishes_disjointness (s s' : Session)
    (hst : s.state = DState.HANDLE_NEGATION)
    (hnd : ∀ c ∈ (["cuisine", "ingredient", "category", "dietary"] : List String),
      (prefsGet s.prefs c).Nodup)
    (h : stepAuto s = some s') (t : String)
    (ht : t ∈ negationItems s.lastIntent.entities) :
    t ∈ prefsGet s'.prefs "dislikes" ∧
    ∀ c ∈ (["cuisine", "ingredient", "category", "dietary"] : List String),
      t ∉ prefsGet s'.prefs c := by
  obtain ⟨prefs, state, asked, clarif, lastIntent⟩ := s
  simp only at hst hnd ht
  subst hst
  unfold stepAuto at h
  simp only at h
  cases hfold : (negationItems lastIntent.entities).foldlM negateTag prefs with
  | none => rw [hfold] at h; cases h
  | some p2 =>
    rw [hfold] at h
    cases h
    have hmain : t ∈ prefsGet p2 "dislikes" ∧
        ∀ c ∈ (["cuisine", "ingredient", "category", "dietary"] : List String),
          t ∉ prefsGet p2 c := by
      refine foldlM_option_reach2
        (fun b => t ∈ prefsGet b "dislikes" ∧
          ∀ c ∈ (["cuisine", "ingredient", "category", "dietary"] : List String),
            t ∉ prefsGet b c)
        (fun b => ∀ c ∈ (["cuisine", "ingredient", "category", "dietary"] : List String),
          (prefsGet b c).Nodup)
        negateTag (negationItems lastIntent.entities) t ht ?_ ?_ ?_ prefs p2 hnd hfold
      · intro b a b' _ hQ hstep c hc
        have hcne : c ≠ "dislikes" := by
          simp only [List.mem_cons, List.not_mem_nil, or_false] at hc
          rcases hc with rfl | rfl | rfl | rfl <;> decide
        exact negateTag_nodup_pres hstep hcne (hQ c hc)
      · intro b b' hQ hstep
        exact ⟨negateTag_mem_dislikes hstep, negateTag_not_mem_positive hQ hstep⟩
      · intro b a b' _ hP hstep
        refine ⟨negateTag_dislikes_mono hstep hP.1, ?_⟩
        intro c hc hmem
        have hcne : c ≠ "dislikes" := by
          simp only [List.mem_cons, List.not_mem_nil, or_false] at hc
          rcases hc with rfl | rfl | rfl | rfl <;> decide
        exact hP.2 c hc (negateTag_positive_subset hstep hcne hmem)
    exact hmain

/-- Witness for the C4 theorem: one negation step on a session that holds
`chicken` as an ingredient and negates it. -/
theorem handle_negation_establishes_disjointness_witness :
    "chicken" ∈ prefsGet
      [("cuisine", []), ("ingredient", []), ("category", []), ("dietary", []),
        ("dislikes", ["chicken"])] "dislikes" ∧
    "chicken" ∉ prefsGet
      [("cuisine", []), ("ingredient", []), ("category", []), ("dietary", []),
        ("dislikes", ["chicken"])] "ingredient" := by
  have h := handle_negation_establishes_disjointness
    ⟨[("cuisine", []), ("ingredient", ["chicken"]), ("category", []), ("dietary", []),
      ("dislikes", [])], DState.HANDLE_NEGATION, [], none,
      ⟨"negation", [("negated", ["chicken"])], []⟩⟩
    ⟨[("cuisine", []), ("ingredient", []), ("category", []), ("dietary", []),
      ("dislikes", ["chicken"])], DState.ASKING_CATEGORY, ["dislikes"], none,
      ⟨"negation", [("negated", ["chicken"])], []⟩⟩
    rfl (by decide) rfl "chicken" (by decide)
  exact ⟨h.1, h.2 _ (by decide)⟩

/-- C8, counterexample: with dislikes-only preferences the controller does
not loop back from `READY_TO_SEARCH`: it asks for confirmation and "yes"
moves it to `SEARCHING` although all three primary categories are empty
(lines 576-580 fall through when `dislikes` is the only preference). -/
theorem ready_dislikes_only_reaches_searching :
    run cfgDemo 12 (initSession lexController) ["without chicken", "skip", "skip"] =
      some sessDislikesReady ∧
    sessDislikesReady.state = DState.READY_TO_SEARCH ∧
    run cfgDemo 12 (initSession lexController) ["without chicken", "skip", "skip", "yes"] =
      some sessDislikesSearching ∧
    sessDislikesSearching.state = DState.SEARCHING ∧
    prefsGet sessDislikesSearching.prefs "ingredient" = [] ∧
    prefsGet sessDislikesSearching.prefs "category" = [] ∧
    prefsGet sessDislikesSearching.prefs "cuisine" = [] :=
  ⟨rfl, rfl, rfl, rfl, by decide, by decide, by decide⟩

/-- C8 (amended): in `READY_TO_SEARCH` with no primary tag the controller
loops straight back to the primary question — without reading input —
unless the preferences are dislikes-only (non-empty `dislikes` and no
positive category), in which case it falls through to the search
confirmation (see the counterexample). -/
theorem ready_without_primary_loops_back (s : Session)
    (hst : s.state = DState.READY_TO_SEARCH)
    (hnp : hasPrimaryTerm s.prefs = false)
    (hrest : prefsGet s.prefs "dislikes" = [] ∨ positivePrinted s.prefs = true) :
    readsInput s = false ∧
    stepAuto s = some { s with
      asked := s.asked.filter (fun k => k != "cuisine" && k != "ingredient" && k != "category")
      state := DState.ASKING_CUISINE_INGREDIENT } := by
  obtain ⟨prefs, state, asked, clarif, lastIntent⟩ := s
  simp only at hst hnp hrest
  subst hst
  constructor
  · show (hasPrimaryTerm prefs ||
      (!(prefsGet prefs "dislikes").isEmpty && !positivePrinted prefs)) = false
    rw [hnp]
    rcases hrest with hd | hp
    · simp [hd]
    · simp [hp]
  · rfl

/-- Witness for the C8 theorem on a session whose only preference is a
dietary tag. -/
theorem ready_without_primary_loops_back_witness :
    readsInput sessReadyDietary = false ∧
    stepAuto sessReadyDietary = some { sessReadyDietary with
      asked := sessReadyDietary.asked.filter
        (fun k => k != "cuisine" && k != "ingredient" && k != "category")
      state := DState.ASKING_CUISINE_INGREDIENT } :=
  ready_without_primary_loops_back sessReadyDietary rfl (by decide) (Or.inl (by decide))

/-! ### Claim theorems: the candidate filter -/

/-- C6: under an active `vegetarian` dietary preference with `chicken` in
the known-meat family, a detail whose ingredient list contains "chicken
broth" is excluded while one whose lines contain only "vegetable broth"
and "onion" is admitted; the third conjunct exhibits the
vegetarian/vegetable/veggie broth qualifier genuinely overriding a
meat-keyword hit inside the same line. -/
theorem check_dietary_vegetarian_broth :
    check_dietary_restrictions (some detailChickenBroth) prefsVegetarian lexVegMeat = true ∧
    check_dietary_restrictions (some detailVegBroth) prefsVegetarian lexVegMeat = false ∧
    check_dietary_restrictions (some detailChickenFlavored) prefsVegetarian lexVegMeat =
      false :=
  ⟨rfl, rfl, rfl⟩

/-- C7: with `forceDetail` false, no dislikes, no dietary tags, and no
secondary category set other than the one used for the primary search, the
filter returns its non-empty input unchanged — for every detail fetcher,
so no detail is ever fetched. -/
theorem filter_noop_without_detail_conditions (fetch : String → Option MealDetail)
    (meals : List MealSummary) (prefs : List (String × List String)) (lex : Lexicon)
    (lists : AvailLists) (initial : Option String)
    (hm : meals ≠ [])
    (hd : prefsGet prefs "dislikes" = [])
    (hdi : prefsGet prefs "dietary" = [])
    (hsec : ∀ c ∈ (["category", "cuisine", "ingredient"] : List String),
      initial ≠ some c → prefsGet prefs c = []) :
    filter_meal_results fetch meals prefs lex lists false initial = meals := by
  have h1 : (!(prefsGet prefs "category").isEmpty && initial != some "category") = false := by
    by_cases hc : initial = some "category"
    · simp [hc]
    · simp [hsec "category" (by simp) hc]
  have h2 : (!(prefsGet prefs "cuisine").isEmpty && initial != some "cuisine") = false := by
    by_cases hc : initial = some "cuisine"
    · simp [hc]
    · simp [hsec "cuisine" (by simp) hc]
  have h3 : (!(prefsGet prefs "ingredient").isEmpty && initial != some "ingredient") =
      false := by
    by_cases hc : initial = some "ingredient"
    · simp [hc]
    · simp [hsec "ingredient" (by simp) hc]
  have hnd : needsDetailCheck prefs false initial = false := by
    unfold needsDetailCheck
    rw [hd, hdi, h1, h2, h3]
    rfl
  unfold filter_meal_results
  rw [if_neg (by simp [hm]), hnd]
  rfl

/-- Witness for the C7 theorem: a cuisine-only preference searched by
cuisine passes through unchanged (with a fetcher that would drop
everything if it were consulted). -/
theorem filter_noop_without_detail_conditions_witness :
    filter_meal_results (fun _ => none)
      [⟨some "1", "Arrabiata"⟩, ⟨some "2", "Carbonara"⟩]
      [("cuisine", ["italian"]), ("ingredient", []), ("category", []), ("dietary", []),
        ("dislikes", [])]
      lexController ⟨[], [], []⟩ false (some "cuisine") =
      [⟨some "1", "Arrabiata"⟩, ⟨some "2", "Carbonara"⟩] :=
  filter_noop_without_detail_conditions (fun _ => none)
    [⟨some "1", "Arrabiata"⟩, ⟨some "2", "Carbonara"⟩]
    [("cuisine", ["italian"]), ("ingredient", []), ("category", []), ("dietary", []),
      ("dislikes", [])]
    lexController ⟨[], [], []⟩ (some "cuisine") (by decide) rfl rfl
    (by intro c hc hne
        simp only [List.mem_cons, List.not_mem_nil, or_false] at hc
        rcases hc with rfl | rfl | rfl
        · rfl
        · exact absurd rfl hne
        · rfl)

theorem mem_of_lookup {β : Type} {k : String} {v : β} {l : List (String × β)}
    (h : List.lookup k l = some v) : (k, v) ∈ l := by
  induction l with
  | nil => cases h
  | cons p t ih =>
    obtain ⟨pk, pv⟩ := p
    rw [lookup_cons_pair] at h
    by_cases hk : k = pk
    · rw [if_pos hk] at h
      cases h
      subst hk
      exact List.mem_cons_self _ _
    · rw [if_neg hk] at h
      exact List.mem_cons_of_mem _ (ih h)

/-- Every candidate the detail loop keeps has a truthy id whose detail
record the fetcher (or the per-call cache filled from it) supplies. -/
theorem filterLoop_kept (fetch : String → Option MealDetail) (lex : Lexicon)
    (lists : AvailLists) (prefs : List (String × List String)) (initial : Option String) :
    ∀ (meals : List MealSummary) (cache : List (String × MealDetail)),
      (∀ pr ∈ cache, fetch pr.1 = some pr.2) →
      ∀ m ∈ filterLoop fetch lex lists prefs initial meals cache,
        ∃ mid d, m.idMeal = some mid ∧ mid ≠ "" ∧ fetch mid = some d := by
  intro meals
  induction meals with
  | nil =>
    intro cache hc m hm
    simp [filterLoop] at hm
  | cons m0 rest ih =>
    intro cache hc m hm
    unfold filterLoop at hm
    cases hid : m0.idMeal with
    | none =>
      rw [hid] at hm
      exact ih cache hc m hm
    | some mid =>
      rw [hid] at hm
      dsimp only at hm
      by_cases hval : (mid == "") = true
      · rw [if_pos hval] at hm
        exact ih cache hc m hm
      · rw [if_neg hval] at hm
        have hmid : mid ≠ "" := by simpa using hval
        cases hcl : List.lookup mid cache with
        | some d =>
          rw [hcl] at hm
          dsimp only at hm
          have hfd : fetch mid = some d := hc (mid, d) (mem_of_lookup hcl)
          by_cases hk : detailSurvives lex lists prefs initial d = true
          · rw [if_pos hk] at hm
            rcases List.mem_cons.mp hm with rfl | hm2
            · exact ⟨mid, d, hid, hmid, hfd⟩
            · exact ih cache hc m hm2
          · rw [if_neg hk] at hm
            exact ih cache hc m hm
        | none =>
          rw [hcl] at hm
          dsimp only at hm
          cases hf : fetch mid with
          | none =>
            rw [hf] at hm
            dsimp only at hm
            exact ih cache hc m hm
          | some d =>
            rw [hf] at hm
            dsimp only at hm
            have hc2 : ∀ pr ∈ cache ++ [(mid, d)], fetch pr.1 = some pr.2 := by
              intro pr hpr
              rcases List.mem_append.mp hpr with hpr | hpr
              · exact hc pr hpr
              · simp only [List.mem_singleton] at hpr
                rw [hpr]
                exact hf
            by_cases hk : detailSurvives lex lists prefs initial d = true
            · rw [if_pos hk] at hm
              rcases List.mem_cons.mp hm with rfl | hm2
              · exact ⟨mid, d, hid, hmid, hf⟩
              · exact ih _ hc2 m hm2
            · rw [if_neg hk] at hm
              exact ih _ hc2 m hm

/-- C10: in every detail-inspecting pass, each kept candidate has a present,
non-empty id and a fetchable detail record (candidates with a missing or
falsy id, or whose detail cannot be fetched, are excluded); and both
checkers report exclusion on an absent detail record even when the
corresponding preference lists are empty. -/
theorem filter_excludes_unfetchable (fetch : String → Option MealDetail)
    (meals : List MealSummary) (prefs : List (String × List String)) (lex : Lexicon)
    (lists : AvailLists) (force : Bool) (initial : Option String)
    (hneeds : needsDetailCheck prefs force initial = true) :
    (∀ m ∈ filter_meal_results fetch meals prefs lex lists force initial,
      ∃ mid d, m.idMeal = some mid ∧ mid ≠ "" ∧ fetch mid = some d) ∧
    (∀ (prefs2 : List (String × List String)) (lex2 : Lexicon),
      check_dislikes none prefs2 lex2 = true) ∧
    (∀ (prefs2 : List (String × List String)) (lex2 : Lexicon),
      check_dietary_restrictions none prefs2 lex2 = true) := by
  refine ⟨?_, fun _ _ => rfl, fun _ _ => rfl⟩
  intro m hm
  unfold filter_meal_results at hm
  by_cases hme : meals.isEmpty
  · rw [if_pos hme] at hm
    simp at hm
  · rw [if_neg hme, hneeds] at hm
    simp only [Bool.not_true, Bool.false_eq_true, if_false] at hm
    exact filterLoop_kept fetch lex lists prefs initial meals [] (by intro pr hpr; cases hpr)
      m hm

/-- Witness for the C10 theorem: a forced detail pass over one candidate
with an id but no fetchable detail keeps nothing. -/
theorem filter_excludes_unfetchable_witness :
    (∀ m ∈ filter_meal_results (fun _ => none) [⟨some "7", "Ghost"⟩] [] [] ⟨[], [], []⟩
        true none,
      ∃ mid d, m.idMeal = some mid ∧ mid ≠ "" ∧ (fun _ => (none : Option MealDetail)) mid =
        some d) ∧
    check_dislikes none [] [] = true ∧
    check_dietary_restrictions none [] [] = true := by
  have h := filter_excludes_unfetchable (fun _ => none) [⟨some "7", "Ghost"⟩] [] []
    ⟨[], [], []⟩ true none rfl
  exact ⟨h.1, h.2.1 [] [], h.2.2 [] []⟩

theorem containsS_iff_mem {α : Type} [BEq α] [LawfulBEq α] {l : List α} {a : α} :
    l.contains a = true ↔ a ∈ l := List.elem_iff

/-- Elimination of a successful non-degenerate parse (non-empty lexicon, no
question shortcut) into its two passes. -/
theorem parse_elim_main {text : String} {lex : Lexicon} {ask : Asking} {doc : List Token}
    {r : ParseResult} (h : parse_input_nlp text lex ask doc = some r)
    (hlex : lex.isEmpty = false) (hq : questionCheck text doc = false) :
    ∃ st1 st2,
      phrasePass doc (lowerStr text.toList) ask lex ⟨initEnts lex, [], "preference", []⟩ =
        some st1 ∧
      doc.enum.foldlM (tokenStep doc lex ask) st1 = some st2 ∧ r = finalizeParse st2 := by
  unfold parse_input_nlp at h
  rw [if_neg (by simp [hlex]), if_neg (by simp [hq])] at h
  cases hp : phrasePass doc (lowerStr text.toList) ask lex
      ⟨initEnts lex, [], "preference", []⟩ with
  | none => rw [hp] at h; cases h
  | some st1 =>
    rw [hp] at h
    dsimp only at h
    cases hq2 : doc.enum.foldlM (tokenStep doc lex ask) st1 with
    | none => rw [hq2] at h; cases h
    | some st2 =>
      rw [hq2] at h
      dsimp only at h
      exact ⟨st1, st2, rfl, hq2, by cases h; rfl⟩

/-! ### Bucket-absence machinery

The absence conclusions of the phrase-priority claims must survive the
final empty-bucket filter, so absence is tracked over the raw entry list
(robust even under hypothetical duplicate keys). -/

/-- No entry of the map stored under key `b` contains `x`. -/
def NotInBucket (b x : String) (m : EntMap) : Prop := ∀ l, (b, l) ∈ m → x ∉ l

theorem NotInBucket.not_mem_emGet {b x : String} {m : EntMap} (h : NotInBucket b x m) :
    x ∉ emGet m b := by
  unfold emGet
  cases hl : List.lookup b m with
  | none => simp
  | some l => exact h l (mem_of_lookup hl)

theorem NotInBucket.filter {b x : String} {m : EntMap} (h : NotInBucket b x m)
    (p : String × List String → Bool) : NotInBucket b x (m.filter p) :=
  fun l hl => h l (List.mem_of_mem_filter hl)

theorem emAppendNew_notin {m m' : EntMap} {k v b x : String}
    (h : emAppendNew m k v = some m') (hno : NotInBucket b x m)
    (hcase : k ≠ b ∨ v ≠ x) : NotInBucket b x m' := by
  unfold emAppendNew at h
  cases hl : List.lookup k m with
  | none => rw [hl] at h; cases h
  | some l =>
    rw [hl] at h
    dsimp only at h
    by_cases hv : v ∈ l
    · rw [if_pos hv] at h
      cases h
      exact hno
    · rw [if_neg hv] at h
      cases h
      intro l' hl' hx
      rcases List.mem_map.mp hl' with ⟨⟨pk, pv⟩, hpm, hpe⟩
      by_cases hpk : pk = k
      · rw [if_pos hpk] at hpe
        injection hpe with h1 h2
        subst h1
        subst h2
        rcases List.mem_append.mp hx with hx2 | hx2
        · exact hno l (by rw [hpk]; exact mem_of_lookup hl) hx2
        · simp only [List.mem_singleton] at hx2
          rcases hcase with hc | hc
          · exact hc hpk.symm
          · exact hc hx2.symm
      · rw [if_neg hpk] at hpe
        injection hpe with h1 h2
        subst h1
        subst h2
        exact hno pv hpm hx

theorem recordKey_notin {st st' : PState} {t k b x : String}
    (h : recordKey st t k = some st') (hno : NotInBucket b x st.ents)
    (hcase : t ≠ b ∨ k ≠ x) : NotInBucket b x st'.ents := by
  obtain ⟨happ, _, _, _⟩ := recordKey_elim h
  exact emAppendNew_notin happ hno hcase

/-- The target bucket of a phrase occurrence does not depend on the running
intent. -/
def phraseTargetBucket (ask : Asking) (pt : String) (isNeg : Bool) : String :=
  if askingIsDislikes ask && pt != "dislikes" then "dislikes"
  else if isNeg && pt != "dislikes" then "negated"
  else pt

theorem phraseTarget_fst (ask : Asking) (pt intent : String) (isNeg : Bool) :
    (phraseTarget ask pt intent isNeg).1 = phraseTargetBucket ask pt isNeg := by
  unfold phraseTarget phraseTargetBucket
  by_cases hA : (askingIsDislikes ask && pt != "dislikes") = true
  · rw [if_pos hA, if_pos hA]
  · rw [if_neg hA, if_neg hA]
    by_cases hB : (isNeg && pt != "dislikes") = true
    · rw [if_pos hB, if_pos hB]
    · rw [if_neg hB, if_neg hB]

/-- Elimination of one successful phrase-occurrence step. -/
theorem phraseOccStep_elim {doc : List Token} {textL : Str} {ask : Asking}
    {st st' : PState} {ev : PhraseEv} (h : phraseOccStep doc textL ask st ev = some st') :
    ∃ st2, recordKey { st with intent :=
        (phraseTarget ask ev.pt st.intent (phraseNegTest doc textL ev.kwL ev.occ)).2 }
      (phraseTarget ask ev.pt st.intent (phraseNegTest doc textL ev.kwL ev.occ)).1 ev.key =
        some st2 ∧
      st' = { st2 with matchedIdx := st2.matchedIdx ++
        (match charSpan doc ev.occ (ev.occ + ev.kwL.length) with
         | some sp => List.range' sp.1 (sp.2 - sp.1)
         | none => []) } := by
  unfold phraseOccStep at h
  cases hrk : recordKey { st with intent :=
      (phraseTarget ask ev.pt st.intent (phraseNegTest doc textL ev.kwL ev.occ)).2 }
      (phraseTarget ask ev.pt st.intent (phraseNegTest doc textL ev.kwL ev.occ)).1
      ev.key with
  | none => rw [hrk] at h; cases h
  | some st2 =>
    rw [hrk] at h
    cases h
    exact ⟨st2, rfl, rfl⟩

/-- One phrase step only grows the buckets and the matched-index set. -/
theorem phraseOccStep_mono {doc : List Token} {textL : Str} {ask : Asking}
    {st st' : PState} {ev : PhraseEv} (h : phraseOccStep doc textL ask st ev = some st') :
    (∀ b x, x ∈ emGet st.ents b → x ∈ emGet st'.ents b) ∧
    (∀ n, st.matchedIdx.contains n = true → st'.matchedIdx.contains n = true) := by
  obtain ⟨st2, hrk, hst⟩ := phraseOccStep_elim h
  obtain ⟨happ, _, hmx, _⟩ := recordKey_elim hrk
  subst hst
  constructor
  · intro b x hx
    exact emAppendNew_mono happ b hx
  · intro n hn
    rw [containsS_iff_mem] at hn ⊢
    rw [hmx]
    exact List.mem_append_left _ hn

/-- One token step only grows the buckets and keeps the matched set. -/
theorem tokenStep_mono {doc : List Token} {lex : Lexicon} {ask : Asking}
    {st st' : PState} {it : Nat × Token} (h : tokenStep doc lex ask st it = some st') :
    (∀ b x, x ∈ emGet st.ents b → x ∈ emGet st'.ents b) ∧
    (∀ n, st.matchedIdx.contains n = true → st'.matchedIdx.contains n = true) := by
  unfold tokenStep at h
  by_cases hskip : st.matchedIdx.contains it.1
  · rw [if_pos hskip] at h
    cases h
    exact ⟨fun _ _ hx => hx, fun _ hn => hn⟩
  · rw [if_neg hskip] at h
    cases hscan : scanTypes lex ((prioList ask).filter (fun t => t != "flavor"))
        (pyLowerS it.2.text) it.2.lemma_ with
    | some ptk =>
      rw [hscan] at h
      obtain ⟨happ, _, hmx, _⟩ := recordKey_elim h
      exact ⟨fun b x hx => emAppendNew_mono happ b hx, fun n hn => by rw [hmx]; exact hn⟩
    | none =>
      rw [hscan] at h
      cases hscan2 : scanRest lex (prioList ask) (pyLowerS it.2.text) it.2.lemma_ with
      | some ptk =>
        rw [hscan2] at h
        obtain ⟨happ, _, hmx, _⟩ := recordKey_elim h
        exact ⟨fun b x hx => emAppendNew_mono happ b hx, fun n hn => by rw [hmx]; exact hn⟩
      | none =>
        rw [hscan2] at h
        by_cases hnoun : (it.2.pos_ == "NOUN") = true
        · rw [if_pos hnoun] at h
          cases hik : ingredientKeyForAttr lex (pyLowerS it.2.text) it.2.lemma_ with
          | some ik =>
            rw [hik] at h
            cases h
            exact ⟨fun _ _ hx => hx, fun _ hn => hn⟩
          | none =>
            rw [hik] at h
            cases h
            exact ⟨fun _ _ hx => hx, fun _ hn => hn⟩
        · rw [if_neg hnoun] at h
          cases h
          exact ⟨fun _ _ hx => hx, fun _ hn => hn⟩

theorem mem_typesForPhraseCheck {lex : Lexicon} {ask : Asking} {cat : String}
    (hflav : cat ≠ "flavor")
    (hin : cat ∈ prioList ask ∨
      (cat ∈ lex.map Prod.fst ∧ strStartsWith cat "known_" = false)) :
    cat ∈ typesForPhraseCheck lex ask := by
  unfold typesForPhraseCheck
  rw [List.mem_filter]
  refine ⟨?_, by simp [hflav]⟩
  rw [List.mem_append]
  rcases hin with h | ⟨h1, h2⟩
  · exact Or.inl h
  · by_cases hp : cat ∈ prioList ask
    · exact Or.inl hp
    · refine Or.inr ?_
      rw [List.mem_filter]
      have hc : (prioList ask).contains cat = false := by
        cases hcc : (prioList ask).contains cat
        · rfl
        · exact absurd (containsS_iff_mem.mp hcc) hp
      exact ⟨h1, by simp [hc, h2, hp]⟩

theorem phraseEvents_sound {lex : Lexicon} {ask : Asking} {textL : Str}
    {cat tag kw : String} {tm : TagMap} {kws : List String} {occ : Nat}
    (hmem : cat ∈ typesForPhraseCheck lex ask)
    (hcat : List.lookup cat lex = some tm)
    (hent : (tag, kws) ∈ tm) (hkw : kw ∈ kws)
    (hmw : (lowerStr kw.toList).contains ' ' = true)
    (hocc : occ ∈ findOccs (lowerStr kw.toList) textL) :
    (⟨cat, tag, lowerStr kw.toList, occ⟩ : PhraseEv) ∈ phraseEvents lex ask textL := by
  unfold phraseEvents
  refine List.mem_flatMap.mpr ⟨cat, hmem, ?_⟩
  rw [hcat]
  dsimp only
  refine List.mem_flatMap.mpr ⟨(tag, kws), hent, ?_⟩
  refine List.mem_flatMap.mpr ⟨kw, hkw, ?_⟩
  dsimp only
  rw [if_pos hmw]
  exact List.mem_map.mpr ⟨occ, hocc, rfl⟩

theorem phraseEvents_char {lex : Lexicon} {ask : Asking} {textL : Str} {ev : PhraseEv}
    (h : ev ∈ phraseEvents lex ask textL) :
    ∃ tmX kwsX kw2,
      List.lookup ev.pt lex = some tmX ∧ (ev.key, kwsX) ∈ tmX ∧ kw2 ∈ kwsX ∧
      lowerStr kw2.toList = ev.kwL ∧ ev.kwL.contains ' ' = true ∧
      ev.occ ∈ findOccs ev.kwL textL := by
  unfold phraseEvents at h
  rcases List.mem_flatMap.mp h with ⟨pt, _, h2⟩
  cases hlk : List.lookup pt lex with
  | none => rw [hlk] at h2; cases h2
  | some tmX =>
    rw [hlk] at h2
    dsimp only at h2
    rcases List.mem_flatMap.mp h2 with ⟨⟨key, kwsX⟩, hkv, h3⟩
    rcases List.mem_flatMap.mp h3 with ⟨kw2, hkw2, h4⟩
    dsimp only at h4
    by_cases hsp : (lowerStr kw2.toList).contains ' ' = true
    · rw [if_pos hsp] at h4
      rcases List.mem_map.mp h4 with ⟨o, ho, hoe⟩
      cases hoe
      exact ⟨tmX, kwsX, kw2, hlk, hkv, hkw2, rfl, hsp, ho⟩
    · rw [if_neg hsp] at h4
      cases h4

theorem scanTypes_origin {lex : Lexicon} {types : List String} {surf lem pt key : String}
    (h : scanTypes lex types surf lem = some (pt, key)) :
    pt ∈ types ∧ ∃ tmX kwsX, List.lookup pt lex = some tmX ∧ (key, kwsX) ∈ tmX ∧
      (kwsX.contains surf = true ∨ kwsX.contains lem = true) := by
  induction types with
  | nil => cases h
  | cons t rest ih =>
    unfold scanTypes at h
    cases hlk : List.lookup t lex with
    | none =>
      rw [hlk] at h
      rcases ih h with ⟨h1, h2⟩
      exact ⟨List.mem_cons_of_mem _ h1, h2⟩
    | some tmX =>
      rw [hlk] at h
      dsimp only at h
      cases hf : tmX.find? (fun kv => kv.2.contains surf || kv.2.contains lem) with
      | some kv =>
        rw [hf] at h
        cases h
        refine ⟨List.mem_cons_self _ _, tmX, kv.2, hlk, ?_, ?_⟩
        · exact List.mem_of_find?_eq_some hf
        · have hp := List.find?_some hf
          simpa using hp
      | none =>
        rw [hf] at h
        rcases ih h with ⟨h1, h2⟩
        exact ⟨List.mem_cons_of_mem _ h1, h2⟩

theorem scanRest_origin {lex : Lexicon} {prio : List String} {surf lem pt key : String}
    (h : scanRest lex prio surf lem = some (pt, key)) :
    ∃ tmX kwsX, (pt, tmX) ∈ lex ∧ strStartsWith pt "known_" = false ∧ pt ∉ prio ∧
      pt ≠ "flavor" ∧ (key, kwsX) ∈ tmX ∧
      (kwsX.contains surf = true ∨ kwsX.contains lem = true) := by
  induction lex with
  | nil => cases h
  | cons e rest ih =>
    obtain ⟨c, tmE⟩ := e
    unfold scanRest at h
    by_cases hskip : (strStartsWith c "known_" || prio.contains c || c == "flavor") = true
    · rw [if_pos hskip] at h
      rcases ih h with ⟨tmX, kwsX, h1, hrest⟩
      exact ⟨tmX, kwsX, List.mem_cons_of_mem _ h1, hrest⟩
    · rw [if_neg hskip] at h
      have hknown2 : strStartsWith c "known_" = false := by
        cases hx : strStartsWith c "known_"
        · rfl
        · exact absurd (by simp [hx]) hskip
      have hprio2 : prio.contains c = false := by
        cases hx : prio.contains c
        · rfl
        · exact absurd (by simp [containsS_iff_mem.mp hx]) hskip
      have hflav2 : (c == "flavor") = false := by
        cases hx : (c == "flavor")
        · rfl
        · exact absurd (by simp [hx]) hskip
      cases hf : tmE.find? (fun kv => kv.2.contains surf || kv.2.contains lem) with
      | some kv =>
        rw [hf] at h
        cases h
        refine ⟨tmE, kv.2, List.mem_cons_self _ _, hknown2, ?_, ?_, ?_, ?_⟩
        · intro hc
          rw [containsS_iff_mem.mpr hc] at hprio2
          cases hprio2
        · intro hc
          rw [hc] at hflav2
          simp at hflav2
        · exact List.mem_of_find?_eq_some hf
        · have hp := List.find?_some hf
          simpa using hp
      | none =>
        rw [hf] at h
        rcases ih h with ⟨tmX, kwsX, h1, hrest⟩
        exact ⟨tmX, kwsX, List.mem_cons_of_mem _ h1, hrest⟩

theorem lookup_eq_of_mem_nodup {β : Type} {l : List (String × β)} {k : String} {v : β}
    (hm : (k, v) ∈ l) (hnd : (l.map Prod.fst).Nodup) : List.lookup k l = some v := by
  induction l with
  | nil => cases hm
  | cons p t ih =>
    obtain ⟨pk, pv⟩ := p
    rw [lookup_cons_pair]
    rcases List.mem_cons.mp hm with he | hm2
    · injection he with h1 h2
      subst h1
      subst h2
      rw [if_pos rfl]
    · by_cases hk : k = pk
      · subst hk
        exfalso
        have hmem : k ∈ t.map Prod.fst := List.mem_map.mpr ⟨(k, v), hm2, rfl⟩
        simp only [List.map_cons, List.nodup_cons] at hnd
        exact hnd.1 hmem
      · rw [if_neg hk]
        simp only [List.map_cons, List.nodup_cons] at hnd
        exact ih hm2 hnd.2

theorem NotInBucket_initEnts (lex : Lexicon) (b x : String) :
    NotInBucket b x (initEnts lex) := by
  intro l hl
  unfold initEnts at hl
  have hle : l = [] := by
    rcases List.mem_append.mp hl with hl | hl
    · rcases List.mem_map.mp hl with ⟨k, _, hk⟩
      injection hk with _ h2
      exact h2.symm
    · simp only [List.mem_singleton, Prod.mk.injEq] at hl
      exact hl.2
  rw [hle]
  exact List.not_mem_nil x

theorem phraseTargetBucket_dislikes (ask : Asking) (isNeg : Bool) :
    phraseTargetBucket ask "dislikes" isNeg = "dislikes" := by
  unfold phraseTargetBucket
  simp

theorem phraseTargetBucket_noask {ask : Asking} (hask : askingIsDislikes ask = false)
    (pt : String) (isNeg : Bool) :
    phraseTargetBucket ask pt isNeg =
      if isNeg && (pt != "dislikes") then "negated" else pt := by
  unfold phraseTargetBucket
  simp [hask]

/-- Presence: a phrase event of the event list lands its tag in its target
bucket by the end of the phrase pass. -/
theorem phrasePass_adds {doc : List Token} {textL : Str} {ask : Asking} {lex : Lexicon}
    {st0 st1 : PState} {ev : PhraseEv}
    (hev : ev ∈ phraseEvents lex ask textL)
    (h : phrasePass doc textL ask lex st0 = some st1) :
    ev.key ∈ emGet st1.ents
      (phraseTargetBucket ask ev.pt (phraseNegTest doc textL ev.kwL ev.occ)) := by
  refine foldlM_option_reach
    (fun st => ev.key ∈ emGet st.ents
      (phraseTargetBucket ask ev.pt (phraseNegTest doc textL ev.kwL ev.occ)))
    (phraseOccStep doc textL ask) _ ev hev ?_ ?_ st0 st1 h
  · intro b b' hstep
    obtain ⟨st2, hrk, hst⟩ := phraseOccStep_elim hstep
    subst hst
    show ev.key ∈ emGet st2.ents _
    obtain ⟨happ, _, _, _⟩ := recordKey_elim hrk
    have hself := emAppendNew_self happ
    rw [phraseTarget_fst] at hself
    exact hself
  · intro b a b' _ hP hstep
    exact (phraseOccStep_mono hstep).1 _ _ hP

/-- Marking: a phrase event whose char span resolves marks its whole token
span by the end of the phrase pass. -/
theorem phrasePass_marks {doc : List Token} {textL : Str} {ask : Asking} {lex : Lexicon}
    {st0 st1 : PState} {ev : PhraseEv} {i j : Nat}
    (hev : ev ∈ phraseEvents lex ask textL)
    (hspan : charSpan doc ev.occ (ev.occ + ev.kwL.length) = some (i, j))
    (h : phrasePass doc textL ask lex st0 = some st1) :
    ∀ n ∈ List.range' i (j - i), st1.matchedIdx.contains n = true := by
  refine foldlM_option_reach
    (fun st => ∀ n ∈ List.range' i (j - i), st.matchedIdx.contains n = true)
    (phraseOccStep doc textL ask) _ ev hev ?_ ?_ st0 st1 h
  · intro b b' hstep n hn
    obtain ⟨st2, _, hst⟩ := phraseOccStep_elim hstep
    subst hst
    show (st2.matchedIdx ++ _).contains n = true
    rw [hspan]
    dsimp only
    rw [containsS_iff_mem]
    exact List.mem_append_right _ hn
  · intro b a b' _ hP hstep n hn
    exact (phraseOccStep_mono hstep).2 n (hP n hn)

/-- Presence is preserved across the single-token pass. -/
theorem tokenPass_mem_mono {doc : List Token} {lex : Lexicon} {ask : Asking}
    {st1 st2 : PState} {b x : String}
    (h : doc.enum.foldlM (tokenStep doc lex ask) st1 = some st2)
    (hx : x ∈ emGet st1.ents b) : x ∈ emGet st2.ents b :=
  foldlM_option_inv (fun st => x ∈ emGet st.ents b) _ _
    (fun _ _ _ _ hP hs => (tokenStep_mono hs).1 _ _ hP) st1 st2 hx h

/-- A bucket member survives finalization. -/
theorem finalizeParse_mem {st2 : PState} {b x : String} (hx : x ∈ emGet st2.ents b) :
    x ∈ prGet (finalizeParse st2) b := by
  unfold finalizeParse prGet
  dsimp only
  rw [emGet_filter_of_ne_nil _ _ (List.ne_nil_of_mem hx)]
  exact hx

/-- Bucket absence survives finalization. -/
theorem finalizeParse_notin {st2 : PState} {b x : String}
    (hno : NotInBucket b x st2.ents) : x ∉ prGet (finalizeParse st2) b :=
  (hno.filter _).not_mem_emGet

/-- Absence preservation across the phrase pass: when every multi-word
keyword occurrence of the tag is negated (and the asking type is not
`dislikes`), the phrase pass never records the tag under its home
category. -/
theorem phrasePass_notin {doc : List Token} {textL : Str} {ask : Asking} {lex : Lexicon}
    {st0 st1 : PState} {cat tag : String} {tm : TagMap}
    (hask : askingIsDislikes ask = false)
    (hcat : List.lookup cat lex = some tm)
    (hcd : cat ≠ "dislikes") (hcn : cat ≠ "negated")
    (hguard : ∀ kws2, (tag, kws2) ∈ tm → ∀ kw2 ∈ kws2,
      (lowerStr kw2.toList).contains ' ' = true →
      ∀ o ∈ findOccs (lowerStr kw2.toList) textL,
        phraseNegTest doc textL (lowerStr kw2.toList) o = true)
    (h : phrasePass doc textL ask lex st0 = some st1)
    (hno : NotInBucket cat tag st0.ents) : NotInBucket cat tag st1.ents := by
  refine foldlM_option_inv (fun st => NotInBucket cat tag st.ents)
    (phraseOccStep doc textL ask) _ ?_ st0 st1 hno h
  intro st ev st' hev hP hstep
  obtain ⟨st2, hrk, hst⟩ := phraseOccStep_elim hstep
  subst hst
  show NotInBucket cat tag st2.ents
  have hbucket : (phraseTarget ask ev.pt st.intent
      (phraseNegTest doc textL ev.kwL ev.occ)).1 =
      phraseTargetBucket ask ev.pt (phraseNegTest doc textL ev.kwL ev.occ) :=
    phraseTarget_fst _ _ _ _
  by_cases hkey : ev.key = tag
  · by_cases hpt : ev.pt = cat
    · rcases phraseEvents_char hev with ⟨tmX, kwsX, kw2, hlk, hent, hkw2, hlow, hsp, hoc⟩
      rw [hpt, hcat] at hlk
      injection hlk with hlk
      subst hlk
      rw [hkey] at hent
      have hneg2 := hguard kwsX hent kw2 hkw2 (by rw [hlow]; exact hsp)
        ev.occ (by rw [hlow]; exact hoc)
      rw [hlow] at hneg2
      refine recordKey_notin hrk hP (Or.inl ?_)
      rw [hbucket, phraseTargetBucket_noask hask, hneg2,
        if_pos (by simp [hpt, hcd])]
      exact fun hc => hcn hc.symm
    · refine recordKey_notin hrk hP (Or.inl ?_)
      rw [hbucket, phraseTargetBucket_noask hask]
      by_cases hn2 : (phraseNegTest doc textL ev.kwL ev.occ &&
          (ev.pt != "dislikes")) = true
      · rw [if_pos hn2]
        exact fun hc => hcn hc.symm
      · rw [if_neg hn2]
        exact fun hc => hpt hc
  · exact recordKey_notin hrk hP (Or.inr fun hc => hkey hc)

/-- Absence preservation across one token of the single-token pass: every
token whose surface or lemma matches one of the tag's keyword lists is
either negated or already consumed by a phrase match. -/
theorem tokenStep_notin {doc : List Token} {lex : Lexicon} {ask : Asking}
    {st st' : PState} {it : Nat × Token} {cat tag : String} {tm : TagMap}
    (hcat : List.lookup cat lex = some tm)
    (hcd : cat ≠ "dislikes") (hcn : cat ≠ "negated")
    (hlexnd : (lex.map Prod.fst).Nodup)
    (hguard : ∀ kws2, (tag, kws2) ∈ tm →
      (pyLowerS it.2.text ∈ kws2 ∨ it.2.lemma_ ∈ kws2) →
      (tokenNegated doc it.1 it.2 = true ∨ st.matchedIdx.contains it.1 = true))
    (hno : NotInBucket cat tag st.ents)
    (h : tokenStep doc lex ask st it = some st') : NotInBucket cat tag st'.ents := by
  unfold tokenStep at h
  by_cases hskip : st.matchedIdx.contains it.1 = true
  · rw [if_pos hskip] at h
    cases h
    exact hno
  · rw [if_neg hskip] at h
    cases hscan : scanTypes lex ((prioList ask).filter (fun t => t != "flavor"))
        (pyLowerS it.2.text) it.2.lemma_ with
    | some ptk =>
      obtain ⟨ptA, keyA⟩ := ptk
      rw [hscan] at h
      dsimp only at h
      by_cases hneg : tokenNegated doc it.1 it.2 = true
      · refine recordKey_notin h hno (Or.inl ?_)
        unfold tokenTargetPrio
        dsimp only
        rw [if_pos hneg]
        by_cases hd : (ptA != "dislikes") = true
        · rw [if_pos hd]
          exact fun hc => hcn hc.symm
        · rw [if_neg hd]
          exact fun hc => hcd hc.symm
      · by_cases hkey : keyA = tag
        · by_cases hpt : ptA = cat
          · exfalso
            rcases scanTypes_origin hscan with ⟨_, tmX, kwsX, hlk, hent, hcont⟩
            rw [hpt, hcat] at hlk
            injection hlk with hlk
            subst hlk
            rw [hkey] at hent
            have hmem2 : pyLowerS it.2.text ∈ kwsX ∨ it.2.lemma_ ∈ kwsX := by
              rcases hcont with hc | hc
              · exact Or.inl (containsS_iff_mem.mp hc)
              · exact Or.inr (containsS_iff_mem.mp hc)
            rcases hguard kwsX hent hmem2 with hg | hg
            · exact hneg hg
            · exact hskip hg
          · refine recordKey_notin h hno (Or.inl ?_)
            unfold tokenTargetPrio
            dsimp only
            rw [if_neg hneg]
            exact fun hc => hpt hc
        · refine recordKey_notin h hno (Or.inr ?_)
          exact fun hc => hkey hc
    | none =>
      rw [hscan] at h
      dsimp only at h
      cases hscan2 : scanRest lex (prioList ask) (pyLowerS it.2.text) it.2.lemma_ with
      | some ptk =>
        obtain ⟨ptA, keyA⟩ := ptk
        rw [hscan2] at h
        dsimp only at h
        by_cases hneg : tokenNegated doc it.1 it.2 = true
        · refine recordKey_notin h hno (Or.inl ?_)
          unfold tokenTargetRest
          dsimp only
          rw [if_pos hneg]
          exact fun hc => hcn hc.symm
        · by_cases hkey : keyA = tag
          · by_cases hpt : ptA = cat
            · exfalso
              rcases scanRest_origin hscan2 with ⟨tmX, kwsX, hment, _, _, _, hent, hcont⟩
              rw [hpt] at hment
              have hlk := lookup_eq_of_mem_nodup hment hlexnd
              rw [hcat] at hlk
              injection hlk with hlk
              subst hlk
              rw [hkey] at hent
              have hmem2 : pyLowerS it.2.text ∈ kwsX ∨ it.2.lemma_ ∈ kwsX := by
                rcases hcont with hc | hc
                · exact Or.inl (containsS_iff_mem.mp hc)
                · exact Or.inr (containsS_iff_mem.mp hc)
              rcases hguard kwsX hent hmem2 with hg | hg
              · exact hneg hg
              · exact hskip hg
            · refine recordKey_notin h hno (Or.inl ?_)
              unfold tokenTargetRest
              dsimp only
              rw [if_neg hneg]
              exact fun hc => hpt hc
          · refine recordKey_notin h hno (Or.inr ?_)
            exact fun hc => hkey hc
      | none =>
        rw [hscan2] at h
        dsimp only at h
        by_cases hnoun : (it.2.pos_ == "NOUN") = true
        · rw [if_pos hnoun] at h
          cases hik : ingredientKeyForAttr lex (pyLowerS it.2.text) it.2.lemma_ with
          | some ik =>
            rw [hik] at h
            dsimp only at h
            cases h
            exact hno
          | none =>
            rw [hik] at h
            dsimp only at h
            cases h
            exact hno
        · rw [if_neg hnoun] at h
          cases h
          exact hno

/-- The parser state entering the phrase pass satisfies the intent
invariant. -/
theorem IntentInv_init (lex : Lexicon) :
    IntentInv ⟨initEnts lex, [], "preference", []⟩ := by
  refine ⟨Or.inl rfl, ?_, ?_⟩ <;> intro hc <;> simp at hc

/-- C1 counterexample: with `current_asking_type = "dislikes"` every phrase
match is redirected to the `dislikes` bucket, so the non-negated cuisine
phrase "italian food" is recorded under `dislikes` (with intent
`dislike_statement`) and not under its home category `cuisine`, against the
claim that a non-negated phrase match is recorded under its home
category. -/
theorem phrase_negation_routing_counterexample :
    parse_input_nlp "italian food" lexItalian (Asking.one "dislikes") docItalianFood =
      some ⟨"dislike_statement", [("dislikes", ["italian"])], []⟩ ∧
    phraseNegTest docItalianFood (lowerStr "italian food".toList)
      (lowerStr "italian food".toList) 0 = false ∧
    0 ∈ findOccs (lowerStr "italian food".toList) (lowerStr "italian food".toList) ∧
    List.lookup "cuisine" lexItalian = some [("italian", ["italian food"])] ∧
    "italian" ∉ prGet ⟨"dislike_statement", [("dislikes", ["italian"])], []⟩ "cuisine" :=
  ⟨rfl, rfl, by decide, rfl, by decide⟩

/-- C1 (amended): routing of a multi-word keyword phrase occurrence, for a
successful non-question parse.  Provided the asking type is NOT `dislikes`
(the omission in the original claim: an active `dislikes` asking type
redirects every phrase match to `dislikes`): (a) a negated occurrence of a
non-`dislikes`-category phrase records its tag in `negated`; (b) a phrase
of the `dislikes` category itself records its tag in `dislikes` and the
final intent is `dislike_statement` or `negation`; (c) a non-negated
occurrence records the tag under its home category; (d) the tag never
reaches its home category when every multi-word occurrence of its keywords
is negated and every single token matching its keywords is negated. -/
theorem phrase_negation_routing
    (text : String) (lex : Lexicon) (ask : Asking) (doc : List Token) (r : ParseResult)
    (cat tag kw : String) (tm : TagMap) (kws : List String) (occ : Nat)
    (h : parse_input_nlp text lex ask doc = some r)
    (hq : questionCheck text doc = false)
    (hcat : List.lookup cat lex = some tm)
    (hflav : cat ≠ "flavor")
    (hknown : strStartsWith cat "known_" = false)
    (htag : List.lookup tag tm = some kws)
    (hkw : kw ∈ kws)
    (hmw : (lowerStr kw.toList).contains ' ' = true)
    (hocc : occ ∈ findOccs (lowerStr kw.toList) (lowerStr text.toList)) :
    (askingIsDislikes ask = false →
      phraseNegTest doc (lowerStr text.toList) (lowerStr kw.toList) occ = true →
      cat ≠ "dislikes" → tag ∈ prGet r "negated") ∧
    (cat = "dislikes" → tag ∈ prGet r "dislikes" ∧
      (r.intent = "dislike_statement" ∨ r.intent = "negation")) ∧
    (askingIsDislikes ask = false →
      phraseNegTest doc (lowerStr text.toList) (lowerStr kw.toList) occ = false →
      tag ∈ prGet r cat) ∧
    (askingIsDislikes ask = false → cat ≠ "dislikes" → cat ≠ "negated" →
      (lex.map Prod.fst).Nodup →
      (∀ e ∈ tm, e.1 = tag → ∀ kw2 ∈ e.2,
        (lowerStr kw2.toList).contains ' ' = true →
        ∀ o ∈ findOccs (lowerStr kw2.toList) (lowerStr text.toList),
          phraseNegTest doc (lowerStr text.toList) (lowerStr kw2.toList) o = true) →
      (∀ e ∈ tm, e.1 = tag → ∀ it ∈ doc.enum,
        (pyLowerS it.2.text ∈ e.2 ∨ it.2.lemma_ ∈ e.2) →
        tokenNegated doc it.1 it.2 = true) →
      tag ∉ prGet r cat) := by
  have hlex : lex.isEmpty = false := by
    cases lex with
    | nil => simp [List.lookup] at hcat
    | cons a t => rfl
  obtain ⟨st1, st2, hp1, hp2, hr⟩ := parse_elim_main h hlex hq
  have hmemT : cat ∈ typesForPhraseCheck lex ask :=
    mem_typesForPhraseCheck hflav
      (Or.inr ⟨List.mem_map.mpr ⟨(cat, tm), mem_of_lookup hcat, rfl⟩, hknown⟩)
  have hev := phraseEvents_sound hmemT hcat (mem_of_lookup htag) hkw hmw hocc
  refine ⟨?_, ?_, ?_, ?_⟩
  · intro hask hnegT hcd
    have hadd := phrasePass_adds hev hp1
    dsimp only at hadd
    rw [phraseTargetBucket_noask hask, hnegT, if_pos (by simp [hcd])] at hadd
    rw [hr]
    exact finalizeParse_mem (tokenPass_mem_mono hp2 hadd)
  · intro hcd
    subst hcd
    have hadd := phrasePass_adds hev hp1
    dsimp only at hadd
    rw [phraseTargetBucket_dislikes] at hadd
    have hpres := finalizeParse_mem (tokenPass_mem_mono hp2 hadd)
    have hinv : IntentInv st2 :=
      tokenPass_inv (phrasePass_inv (IntentInv_init lex) hp1) hp2
    obtain ⟨-, -, h3⟩ := finalizeParse_intent hinv
    rw [hr]
    exact ⟨hpres, h3 (List.ne_nil_of_mem hpres)⟩
  · intro hask hnegF
    have hadd := phrasePass_adds hev hp1
    dsimp only at hadd
    rw [phraseTargetBucket_noask hask, hnegF, if_neg (by simp)] at hadd
    rw [hr]
    exact finalizeParse_mem (tokenPass_mem_mono hp2 hadd)
  · intro hask hcd hcn hlexnd H1 H2
    have hno1 : NotInBucket cat tag st1.ents :=
      phrasePass_notin hask hcat hcd hcn
        (fun kws2 hm => H1 (tag, kws2) hm rfl) hp1
        (NotInBucket_initEnts lex cat tag)
    have hno2 : NotInBucket cat tag st2.ents := by
      refine foldlM_option_inv (fun st => NotInBucket cat tag st.ents) _ _ ?_ st1 st2 hno1 hp2
      intro st it st' hitm hP hstep
      exact tokenStep_notin hcat hcd hcn hlexnd
        (fun kws2 hent hm => Or.inl (H2 (tag, kws2) hent rfl it hitm hm)) hP hstep
    rw [hr]
    exact finalizeParse_notin hno2

/-- Witness for the C1 theorem: all four conclusions at concrete inputs.
"no italian food" (negated phrase) lands `italian` in `negated` and keeps
it out of `cuisine`; "funny mushrooms" (dislikes-category phrase) lands
`mushrooms` in `dislikes`; "italian food" (non-negated) lands `italian`
in `cuisine`. -/
theorem phrase_negation_routing_witness :
    ("italian" ∈ prGet ⟨"negation", [("negated", ["italian"])], []⟩ "negated" ∧
     "italian" ∉ prGet ⟨"negation", [("negated", ["italian"])], []⟩ "cuisine") ∧
    ("mushrooms" ∈ prGet ⟨"dislike_statement", [("dislikes", ["mushrooms"])], []⟩
      "dislikes") ∧
    ("italian" ∈ prGet ⟨"preference", [("cuisine", ["italian"])], []⟩ "cuisine") := by
  have hA := phrase_negation_routing "no italian food" lexItalian Asking.nothing
    docNoItalianFood ⟨"negation", [("negated", ["italian"])], []⟩
    "cuisine" "italian" "italian food" [("italian", ["italian food"])] ["italian food"] 3
    rfl rfl rfl (by decide) (by decide) rfl (by decide) rfl (by decide)
  have hB := phrase_negation_routing "funny mushrooms" lexDislikesMush Asking.nothing
    docFunnyMush ⟨"dislike_statement", [("dislikes", ["mushrooms"])], []⟩
    "dislikes" "mushrooms" "funny mushrooms" [("mushrooms", ["funny mushrooms"])]
    ["funny mushrooms"] 0
    rfl rfl rfl (by decide) (by decide) rfl (by decide) rfl (by decide)
  have hC := phrase_negation_routing "italian food" lexItalian Asking.nothing
    docItalianFood ⟨"preference", [("cuisine", ["italian"])], []⟩
    "cuisine" "italian" "italian food" [("italian", ["italian food"])] ["italian food"] 0
    rfl rfl rfl (by decide) (by decide) rfl (by decide) rfl (by decide)
  refine ⟨⟨hA.1 rfl rfl (by decide),
    hA.2.2.2 rfl (by decide) (by decide) (by decide) (by decide) (by decide)⟩,
    (hB.2.1 rfl).1, hC.2.2.1 rfl rfl⟩

/-- C2: phrase matching has priority over single-token matching.  For a
successful non-question parse in which a multi-word phrase of tag `tag1`
(category `cat1`) occurs non-negated with a resolving char span, while a
second tag `tag2` (category `cat2`) has no multi-word occurrence in the
text and every token matching its keywords lies inside the phrase's
consumed token span, the parse records `tag1` under `cat1` and never
records `tag2` under `cat2`: the consumed indices are skipped by both
single-token passes. -/
theorem phrase_priority_over_tokens
    (text : String) (lex : Lexicon) (ask : Asking) (doc : List Token) (r : ParseResult)
    (cat1 tag1 kw1 cat2 tag2 : String) (tm1 tm2 : TagMap) (kws1 : List String)
    (occ i j : Nat)
    (h : parse_input_nlp text lex ask doc = some r)
    (hq : questionCheck text doc = false)
    (hask : askingIsDislikes ask = false)
    (hcat1 : List.lookup cat1 lex = some tm1)
    (hflav1 : cat1 ≠ "flavor")
    (hknown1 : strStartsWith cat1 "known_" = false)
    (htag1 : List.lookup tag1 tm1 = some kws1)
    (hkw1 : kw1 ∈ kws1)
    (hmw1 : (lowerStr kw1.toList).contains ' ' = true)
    (hocc : occ ∈ findOccs (lowerStr kw1.toList) (lowerStr text.toList))
    (hneg1 : phraseNegTest doc (lowerStr text.toList) (lowerStr kw1.toList) occ = false)
    (hspan : charSpan doc occ (occ + (lowerStr kw1.toList).length) = some (i, j))
    (hcat2 : List.lookup cat2 lex = some tm2)
    (hcd2 : cat2 ≠ "dislikes")
    (hcn2 : cat2 ≠ "negated")
    (hlexnd : (lex.map Prod.fst).Nodup)
    (hnomw : ∀ e ∈ tm2, e.1 = tag2 → ∀ kw2 ∈ e.2,
      (lowerStr kw2.toList).contains ' ' = true →
      findOccs (lowerStr kw2.toList) (lowerStr text.toList) = [])
    (htokin : ∀ e ∈ tm2, e.1 = tag2 → ∀ it ∈ doc.enum,
      (pyLowerS it.2.text ∈ e.2 ∨ it.2.lemma_ ∈ e.2) →
      it.1 ∈ List.range' i (j - i)) :
    tag1 ∈ prGet r cat1 ∧ tag2 ∉ prGet r cat2 := by
  have hlex : lex.isEmpty = false := by
    cases lex with
    | nil => simp [List.lookup] at hcat1
    | cons a t => rfl
  obtain ⟨st1, st2, hp1, hp2, hr⟩ := parse_elim_main h hlex hq
  have hmemT : cat1 ∈ typesForPhraseCheck lex ask :=
    mem_typesForPhraseCheck hflav1
      (Or.inr ⟨List.mem_map.mpr ⟨(cat1, tm1), mem_of_lookup hcat1, rfl⟩, hknown1⟩)
  have hev := phraseEvents_sound hmemT hcat1 (mem_of_lookup htag1) hkw1 hmw1 hocc
  constructor
  · have hadd := phrasePass_adds hev hp1
    dsimp only at hadd
    rw [phraseTargetBucket_noask hask, hneg1, if_neg (by simp)] at hadd
    rw [hr]
    exact finalizeParse_mem (tokenPass_mem_mono hp2 hadd)
  · have hmark1 : ∀ n ∈ List.range' i (j - i), st1.matchedIdx.contains n = true :=
      phrasePass_marks hev hspan hp1
    have hno1 : NotInBucket cat2 tag2 st1.ents := by
      refine phrasePass_notin hask hcat2 hcd2 hcn2 ?_ hp1 (NotInBucket_initEnts lex cat2 tag2)
      intro kws2 hm kw2 hk2 hmw2 o ho
      rw [hnomw (tag2, kws2) hm rfl kw2 hk2 hmw2] at ho
      cases ho
    have hfold := foldlM_option_inv
      (fun st => NotInBucket cat2 tag2 st.ents ∧
        ∀ n ∈ List.range' i (j - i), st.matchedIdx.contains n = true)
      (tokenStep doc lex ask) doc.enum ?_ st1 st2 ⟨hno1, hmark1⟩ hp2
    · rw [hr]
      exact finalizeParse_notin hfold.1
    · intro st it st' hitm hP hstep
      refine ⟨tokenStep_notin hcat2 hcd2 hcn2 hlexnd ?_ hP.1 hstep, ?_⟩
      · intro kws2 hent hm
        exact Or.inr (hP.2 it.1 (htokin (tag2, kws2) hent rfl it hitm hm))
      · intro n hn
        exact (tokenStep_mono hstep).2 n (hP.2 n hn)

/-- Witness for the C2 theorem: "italian food" against a lexicon where
"food" alone is an ingredient keyword resolves to the cuisine phrase tag
only. -/
theorem phrase_priority_over_tokens_witness :
    "italian" ∈ prGet ⟨"preference", [("cuisine", ["italian"])], []⟩ "cuisine" ∧
    "food_generic" ∉ prGet ⟨"preference", [("cuisine", ["italian"])], []⟩ "ingredient" :=
  phrase_priority_over_tokens "italian food" lexPhraseWord Asking.nothing docItalianFood
    ⟨"preference", [("cuisine", ["italian"])], []⟩
    "cuisine" "italian" "italian food" "ingredient" "food_generic"
    [("italian", ["italian food"])] [("food_generic", ["food"])] ["italian food"]
    0 0 2
    rfl rfl rfl rfl (by decide) (by decide) rfl (by decide) rfl (by decide) rfl rfl
    rfl (by decide) (by decide) (by decide) (by decide) (by decide)
